import Mathlib

/-!
Verification of the SMTP session state machine of `envoy-smtp-filter`.

The development shallowly embeds the Rust sources under `src/smtp/`:
byte buffers become `List Nat` (each element a byte value), the stats
sink becomes an event log carried in the session state, fallible
conversions return `Option`, and the one conversion that can abort the
process (`Vec::drain` with an out-of-range end point) returns a
three-valued `PResult`.
-/

namespace Smtp

/-- Byte values of an ASCII string literal. -/
def ascii (s : String) : List Nat := s.data.map Char.toNat

/-- The `<CR><LF>` line terminator.  Modelled from the spec: the `CR_LF`
constant is exported by the `smtp::spec::core` module whose own file is
absent from the sources; the spec fixes it as 0x0D 0x0A. -/
def CR_LF : List Nat := [13, 10]

/-- The space separator byte.  Modelled from the spec: the `SP` constant
is exported by the absent `smtp::spec::core` module; command lines are
split on the first space byte. -/
def SP : Nat := 32

/-- `next_line` from `agent/session.rs`: if the buffer contains the
two-byte `<CR><LF>` terminator, remove and return everything before its
first occurrence and drop the terminator; otherwise leave the buffer
untouched (`none`). -/
def next_line : List Nat → Option (List Nat × List Nat)
  | [] => none
  | [_] => none
  | a :: b :: rest =>
    if a = 13 ∧ b = 10 then some ([], rest)
    else
      match next_line (b :: rest) with
      | some (line, r) => some (a :: line, r)
      | none => none

/-- A UTF-8 continuation byte (`0x80 ..= 0xBF`). -/
def utf8Cont (b : Nat) : Bool := 128 ≤ b ∧ b ≤ 191

/-- Validity of a byte sequence as UTF-8, exactly as checked by Rust's
`String::from_utf8` (the RFC 3629 well-formed byte ranges: rejects
continuation-byte starts, overlong encodings, surrogates and code points
above U+10FFFF). -/
def utf8Valid : List Nat → Bool
  | [] => true
  | b :: rest =>
    if b ≤ 0x7F then utf8Valid rest
    else if b < 0xC2 then false
    else if b ≤ 0xDF then
      match rest with
      | b1 :: r => utf8Cont b1 && utf8Valid r
      | [] => false
    else if b = 0xE0 then
      match rest with
      | b1 :: b2 :: r => (0xA0 ≤ b1 && b1 ≤ 0xBF) && utf8Cont b2 && utf8Valid r
      | _ => false
    else if b ≤ 0xEC then
      match rest with
      | b1 :: b2 :: r => utf8Cont b1 && utf8Cont b2 && utf8Valid r
      | _ => false
    else if b = 0xED then
      match rest with
      | b1 :: b2 :: r => (0x80 ≤ b1 && b1 ≤ 0x9F) && utf8Cont b2 && utf8Valid r
      | _ => false
    else if b ≤ 0xEF then
      match rest with
      | b1 :: b2 :: r => utf8Cont b1 && utf8Cont b2 && utf8Valid r
      | _ => false
    else if b = 0xF0 then
      match rest with
      | b1 :: b2 :: b3 :: r => (0x90 ≤ b1 && b1 ≤ 0xBF) && utf8Cont b2 && utf8Cont b3 && utf8Valid r
      | _ => false
    else if b ≤ 0xF3 then
      match rest with
      | b1 :: b2 :: b3 :: r => utf8Cont b1 && utf8Cont b2 && utf8Cont b3 && utf8Valid r
      | _ => false
    else if b = 0xF4 then
      match rest with
      | b1 :: b2 :: b3 :: r => (0x80 ≤ b1 && b1 ≤ 0x8F) && utf8Cont b2 && utf8Cont b3 && utf8Valid r
      | _ => false
    else false

/-- `str::make_ascii_uppercase`: byte-wise ASCII case folding; non-ASCII
bytes are not altered. -/
def make_ascii_uppercase (bs : List Nat) : List Nat :=
  bs.map fun b => if 97 ≤ b ∧ b ≤ 122 then b - 32 else b

/-- The verb/args split of `Command::try_from` and `Unknown::try_from`:
split on the first space byte; if there is no space the whole line is the
verb and the args are empty. -/
def split_verb : List Nat → List Nat × List Nat
  | [] => ([], [])
  | b :: rest =>
    if b = SP then ([], rest)
    else
      let p := split_verb rest
      (b :: p.1, p.2)

def Helo.VERB : List Nat := ascii "HELO"
def Ehlo.VERB : List Nat := ascii "EHLO"
def Mail.VERB : List Nat := ascii "MAIL"
def Rcpt.VERB : List Nat := ascii "RCPT"
/-- Modelled from the spec: the `Data` unit struct is defined in the
absent `smtp::spec::core` module; the spec's verb table names `DATA`. -/
def Data.VERB : List Nat := ascii "DATA"
/-- Modelled from the spec: the `Rset` unit struct is defined in the
absent `smtp::spec::core` module; the spec's verb table names `RSET`. -/
def Rset.VERB : List Nat := ascii "RSET"
def Vrfy.VERB : List Nat := ascii "VRFY"
def Expn.VERB : List Nat := ascii "EXPN"
def Help.VERB : List Nat := ascii "HELP"
def Noop.VERB : List Nat := ascii "NOOP"
/-- Modelled from the spec: the `Quit` unit struct is defined in the
absent `smtp::spec::core` module; the spec's verb table names `QUIT`. -/
def Quit.VERB : List Nat := ascii "QUIT"
/-- Modelled from the spec: the `StartTls` unit struct is defined in the
absent `smtp::spec::extensions::starttls` module; the spec's verb table
names `STARTTLS`. -/
def StartTls.VERB : List Nat := ascii "STARTTLS"

/-- The `Command` enum of `agent/command.rs`.  Each variant owns the
fields of its verb struct from `smtp/spec` (`Mail`/`Rcpt` keep their
always-`none` parameter slots; `Help`/`Noop` store empty args as `none`).
The `Unknown` variant stores the ASCII-upper-cased verb and the raw
argument bytes. -/
inductive Command where
  | Helo (domain : List Nat)
  | Ehlo (domain : List Nat)
  | Mail (fromPath : List Nat) (params : Option (List Nat))
  | Rcpt (toPath : List Nat) (params : Option (List Nat))
  | Data
  | Rset
  | Vrfy (user_or_mailbox : List Nat)
  | Expn (mailing_list : List Nat)
  | Help (command_name : Option (List Nat))
  | Noop (comment : Option (List Nat))
  | Quit
  | StartTls
  | Unknown (verb : List Nat) (args : List Nat)
deriving DecidableEq, Repr

/-- `Command::verb`. -/
def Command.verb : Command → List Nat
  | .Helo _ => Helo.VERB
  | .Ehlo _ => Ehlo.VERB
  | .Mail _ _ => Mail.VERB
  | .Rcpt _ _ => Rcpt.VERB
  | .Data => Data.VERB
  | .Rset => Rset.VERB
  | .Vrfy _ => Vrfy.VERB
  | .Expn _ => Expn.VERB
  | .Help _ => Help.VERB
  | .Noop _ => Noop.VERB
  | .Quit => Quit.VERB
  | .StartTls => StartTls.VERB
  | .Unknown v _ => v

/-- `Unknown::try_from` (`spec/unknown.rs`): split the whole line, check
the verb bytes are valid UTF-8, upper-case the verb and store the raw
args. -/
def Unknown.try_from (line : List Nat) : Option Command :=
  let p := split_verb line
  if utf8Valid p.1 then some (.Unknown (make_ascii_uppercase p.1) p.2) else none

/-- `Command::try_from` (`agent/command.rs`): split on the first space,
require the verb to be valid UTF-8, upper-case it, dispatch on the fixed
verb table, falling back to `Unknown::try_from` on the whole line. -/
def Command.try_from (line : List Nat) : Option Command :=
  let p := split_verb line
  let args := p.2
  if utf8Valid p.1 then
    let verb := make_ascii_uppercase p.1
    if verb = Helo.VERB then some (.Helo args)
    else if verb = Ehlo.VERB then some (.Ehlo args)
    else if verb = Mail.VERB then some (.Mail args none)
    else if verb = Rcpt.VERB then some (.Rcpt args none)
    else if verb = Data.VERB then some .Data
    else if verb = Rset.VERB then some .Rset
    else if verb = Vrfy.VERB then some (.Vrfy args)
    else if verb = Expn.VERB then some (.Expn args)
    else if verb = Help.VERB then some (.Help (if args = [] then none else some args))
    else if verb = Noop.VERB then some (.Noop (if args = [] then none else some args))
    else if verb = Quit.VERB then some .Quit
    else if verb = StartTls.VERB then some .StartTls
    else Unknown.try_from line
  else none

/-- `ReplyType` from `spec/core/reply.rs`. -/
inductive ReplyType where
  | PositiveCompletionReply
  | PositiveIntermediateReply
  | TransientNegativeCompletionReply
  | PermanentNegativeCompletionReply
deriving DecidableEq, Repr

/-- `ReplyType::is_positive`. -/
def ReplyType.is_positive : ReplyType → Bool
  | .PositiveCompletionReply | .PositiveIntermediateReply => true
  | .TransientNegativeCompletionReply | .PermanentNegativeCompletionReply => false

/-- `ReplyType::try_from` on the first code byte. -/
def ReplyType.try_from (octet : Nat) : Option ReplyType :=
  if octet = 50 then some .PositiveCompletionReply
  else if octet = 51 then some .PositiveIntermediateReply
  else if octet = 52 then some .TransientNegativeCompletionReply
  else if octet = 53 then some .PermanentNegativeCompletionReply
  else none

/-- `ReplyCategory` from `spec/core/reply.rs`. -/
inductive ReplyCategory where
  | Syntax
  | Information
  | Connections
  | X3Z
  | X4Z
  | MailSystem
deriving DecidableEq, Repr

/-- `ReplyCategory::try_from` on the second code byte. -/
def ReplyCategory.try_from (octet : Nat) : Option ReplyCategory :=
  if octet = 48 then some .Syntax
  else if octet = 49 then some .Information
  else if octet = 50 then some .Connections
  else if octet = 51 then some .X3Z
  else if octet = 52 then some .X4Z
  else if octet = 53 then some .MailSystem
  else none

/-- `ReplyGradation` (a single decimal digit). -/
structure ReplyGradation where
  val : Nat
deriving DecidableEq, Repr

/-- `ReplyGradation::try_from` on the third code byte. -/
def ReplyGradation.try_from (octet : Nat) : Option ReplyGradation :=
  if 48 ≤ octet ∧ octet ≤ 57 then some ⟨octet - 48⟩ else none

/-- `ReplyCode` from `spec/core/reply.rs`. -/
structure ReplyCode where
  x : ReplyType
  y : ReplyCategory
  z : ReplyGradation
deriving DecidableEq, Repr

/-- `ReplyCode::response_type`. -/
def ReplyCode.response_type (c : ReplyCode) : ReplyType := c.x

/-- `ReplyCode::try_from`: exactly three bytes, each decoded by its own
converter. -/
def ReplyCode.try_from : List Nat → Option ReplyCode
  | [a, b, c] =>
    match ReplyType.try_from a, ReplyCategory.try_from b, ReplyGradation.try_from c with
    | some x, some y, some z => some ⟨x, y, z⟩
    | _, _, _ => none
  | _ => none

/-- Outcome of a fallible Rust conversion that can also abort the
process (`Vec::drain` panics when the end point of its range exceeds the
vector length). -/
inductive PResult (α : Type) where
  | ok (val : α)
  | err
  | panicked
deriving DecidableEq, Repr

/-- `ReplyLine` from `spec/core/reply.rs`. -/
structure ReplyLine where
  code : ReplyCode
  last : Bool
  text : List Nat
deriving DecidableEq, Repr

/-- `ReplyLine::try_from`: reject lines shorter than 3 bytes, decode the
3-byte code, then `line.drain(0..1)` takes the separator byte.  When the
line is exactly 3 bytes the vector is empty at that point and
`Vec::drain(0..1)` panics, so the source's `[] => true` match arm is
unreachable. -/
def ReplyLine.try_from (line : List Nat) : PResult ReplyLine :=
  if line.length < 3 then .err
  else
    match ReplyCode.try_from (line.take 3) with
    | none => .err
    | some code =>
      match line.drop 3 with
      | [] => .panicked
      | sep :: text =>
        if sep = 32 then .ok ⟨code, true, text⟩
        else if sep = 45 then .ok ⟨code, false, text⟩
        else .err

/-- `ReplyLine::is_end_line`. -/
def ReplyLine.is_end_line (l : ReplyLine) : Bool := l.last

/-- `Reply` from `spec/core/reply.rs`: an ordered sequence of reply
lines. -/
structure Reply where
  lines : List ReplyLine
deriving DecidableEq, Repr

/-- `Reply::new`. -/
def Reply.new (line : ReplyLine) : Reply := ⟨[line]⟩

/-- `Reply::append`. -/
def Reply.append (r : Reply) (line : ReplyLine) : Reply := ⟨r.lines ++ [line]⟩

/-- `Reply::code`: the code of the first line, with a `500`-style
default for the (unreachable) empty case. -/
def Reply.code (r : Reply) : ReplyCode :=
  match r.lines.head? with
  | some l => l.code
  | none => ⟨.PermanentNegativeCompletionReply, .Syntax, ⟨0⟩⟩

/-- One call on the `StatsSink` capability (`agent/stats.rs`), recorded
as an event.  The sink is modelled as an infallible event log. -/
inductive Event where
  | SmtpConnect
  | SmtpConnectReply (code : ReplyCode)
  | SmtpCommand (verb : List Nat)
  | SmtpCommandReply (verb : List Nat) (code : ReplyCode)
  | SmtpTransactionCommit
  | SmtpTransactionCommitReply (code : ReplyCode)
  | SmtpParseError
deriving DecidableEq, Repr

/-- `Transaction` from `agent/session.rs`.  The Rust fields `from` and
`to` are Lean keywords and are renamed `fromPath`/`toPaths`. -/
structure Transaction where
  fromPath : List Nat := []
  toPaths : List (List Nat) := []
  body : List Nat := []
deriving DecidableEq, Repr

instance : Inhabited Transaction := ⟨{}⟩

/-- `PendingReply` from `agent/session.rs`. -/
inductive PendingReply where
  | Connect
  | Command (cmd : Smtp.Command)
  | Commit (tx : Transaction)
deriving DecidableEq, Repr

/-- `Mode` from `agent/session.rs`. -/
inductive Mode where
  | Connect
  | Command
  | Data
  | PassThrough
deriving DecidableEq, Repr

/-- `Session` from `agent/session.rs`, with the stats sink replaced by
the `events` log. -/
structure Session where
  downstream_buffer : List Nat
  upstream_buffer : List Nat
  mode : Mode
  next_reply : Option Reply
  next_body : List Nat
  pending_replies : List PendingReply
  active_transaction : Option Transaction
  events : List Event
deriving DecidableEq, Repr

/-- `Session::new`. -/
def Session.new : Session :=
  { downstream_buffer := []
    upstream_buffer := []
    mode := .Connect
    next_reply := none
    next_body := []
    pending_replies := []
    active_transaction := none
    events := [] }

/-- `Session::on_new_conection` (source spelling): sink notification,
then enqueue the `Connect` pending reply. -/
def Session.on_new_conection (s : Session) : Session :=
  { s with events := s.events ++ [.SmtpConnect],
           pending_replies := s.pending_replies ++ [.Connect] }

/-- `Session::reset`. -/
def Session.reset (s : Session) : Session := { s with active_transaction := none }

/-- `Session::fallback`: report a parse error to the sink and enter
`PassThrough`. -/
def Session.fallback (s : Session) : Session :=
  { s with events := s.events ++ [.SmtpParseError], mode := .PassThrough }

/-- The per-command `ReplyHandler` impls at the bottom of
`agent/session.rs`, collapsed into one exhaustive match. -/
def Command.handle_reply (c : Command) (s : Session) (reply : Reply) : Session :=
  match c with
  | .Helo _ => if reply.code.response_type.is_positive then s.reset else s
  | .Ehlo _ => if reply.code.response_type.is_positive then s.reset else s
  | .Mail f _ =>
    if reply.code.response_type.is_positive then
      let tx := s.active_transaction.getD default
      { s with active_transaction := some { tx with fromPath := f } }
    else s
  | .Rcpt t _ =>
    if reply.code.response_type.is_positive then
      let tx := s.active_transaction.getD default
      { s with active_transaction := some { tx with toPaths := tx.toPaths ++ [t] } }
    else s
  | .Data =>
    if reply.code.response_type.is_positive then
      let tx := s.active_transaction.getD default
      { s with active_transaction := some { tx with body := [] }, mode := .Data }
    else s
  | .Rset => if reply.code.response_type.is_positive then s.reset else s
  | .Vrfy _ => s
  | .Expn _ => s
  | .Help _ => s
  | .Noop _ => s
  | .Quit => s
  | .StartTls => if reply.code.response_type.is_positive then { s with mode := .PassThrough } else s
  | .Unknown _ _ =>
    if reply.code.response_type.is_positive then { s with mode := .PassThrough } else s

/-- `Session::handle_reply`: pop the front pending entry and apply the
reply to it; `none` models the Rust `Err` raised when the queue is
empty. -/
def Session.handle_reply (s : Session) (reply : Reply) : Option Session :=
  match s.pending_replies with
  | [] => none
  | pending :: rest =>
    let s := { s with pending_replies := rest }
    match pending with
    | .Connect =>
      some { s with events := s.events ++ [.SmtpConnectReply reply.code], mode := .Command }
    | .Command cmd =>
      some (cmd.handle_reply
        { s with events := s.events ++ [.SmtpCommandReply cmd.verb reply.code] } reply)
    | .Commit _ =>
      some { s with events := s.events ++ [.SmtpTransactionCommitReply reply.code] }

/-- Outcome of `Session::next_command` on the downstream buffer. -/
inductive CommandStep where
  | Got (cmd : Command)
  | Incomplete
  | ParseError
deriving DecidableEq, Repr

/-- `Session::next_command`, as a pure function of the downstream
buffer: extract one line and parse it. -/
def next_command (buffer : List Nat) : List Nat × CommandStep :=
  match next_line buffer with
  | some (line, rest) =>
    match Command.try_from line with
    | some cmd => (rest, .Got cmd)
    | none => (rest, .ParseError)
  | none => (buffer, .Incomplete)

theorem next_line_length {buf line rest : List Nat}
    (h : next_line buf = some (line, rest)) :
    buf.length = line.length + 2 + rest.length := by
  induction buf generalizing line rest with
  | nil => simp [next_line] at h
  | cons a t ih =>
    cases t with
    | nil => simp [next_line] at h
    | cons b r =>
      rw [next_line] at h
      by_cases hcr : a = 13 ∧ b = 10
      · rw [if_pos hcr] at h
        cases h
        simp only [List.length_cons, List.length_nil]
        omega
      · rw [if_neg hcr] at h
        cases hrec : next_line (b :: r) with
        | none => rw [hrec] at h; cases h
        | some p =>
          obtain ⟨l2, r2⟩ := p
          rw [hrec] at h
          cases h
          have := ih hrec
          simp only [List.length_cons] at this ⊢
          omega

/-- `Session::next_body`, as a pure function of the downstream buffer
and the accumulated body: drain lines, re-appending the terminator to
each; a lone `.` line with a non-empty accumulated body completes the
body, which is drained out of the accumulator. -/
def next_body (buffer body : List Nat) : List Nat × List Nat × Option (List Nat) :=
  match h : next_line buffer with
  | some (line, rest) =>
    let endOfBody : Bool := !body.isEmpty && line == [46]
    let body2 := body ++ line ++ CR_LF
    if endOfBody then (rest, [], some body2)
    else next_body rest body2
  | none => (buffer, body, none)
termination_by buffer.length
decreasing_by
  have := next_line_length h
  omega

/-- Outcome of `Session::next_reply` on the upstream buffer. -/
inductive ReplyStep where
  | Complete (reply : Reply)
  | Incomplete
  | ParseError
  | Panicked
deriving DecidableEq, Repr

/-- `Session::next_reply`, as a pure function of the upstream buffer and
the in-progress reply slot: drain lines, parse each as a `ReplyLine`,
append it to the in-progress reply, and emit the reply when a line has
the last flag. -/
def next_reply (buffer : List Nat) (slot : Option Reply) :
    List Nat × Option Reply × ReplyStep :=
  match h : next_line buffer with
  | some (line, rest) =>
    match ReplyLine.try_from line with
    | .err => (rest, slot, .ParseError)
    | .panicked => (rest, slot, .Panicked)
    | .ok l =>
      let r2 : Reply :=
        match slot with
        | some r => r.append l
        | none => Reply.new l
      if l.is_end_line then (rest, none, .Complete r2)
      else next_reply rest (some r2)
  | none => (buffer, slot, .Incomplete)
termination_by buffer.length
decreasing_by
  have := next_line_length h
  omega

theorem next_command_got_length {buffer rest : List Nat} {cmd : Command}
    (h : next_command buffer = (rest, .Got cmd)) : rest.length < buffer.length := by
  unfold next_command at h
  split at h
  · rename_i line r hl
    have hlen := next_line_length hl
    split at h
    · cases h; omega
    · simp at h
  · simp at h

theorem next_body_eq_none {buffer body : List Nat} (hl : next_line buffer = none) :
    next_body buffer body = (buffer, body, none) := by
  rw [next_body.eq_def]
  split
  · rename_i line2 rst2 hl2
    rw [hl] at hl2
    simp at hl2
  · rfl

theorem next_body_eq_some {buffer body line rst : List Nat}
    (hl : next_line buffer = some (line, rst)) :
    next_body buffer body =
      if !body.isEmpty && line == [46] then (rst, [], some (body ++ line ++ CR_LF))
      else next_body rst (body ++ line ++ CR_LF) := by
  rw [next_body.eq_def]
  split
  · rename_i line2 rst2 hl2
    rw [hl] at hl2
    cases hl2
    rfl
  · rename_i hl2
    rw [hl] at hl2
    simp at hl2

theorem next_reply_eq_none {buffer : List Nat} {slot : Option Reply}
    (hl : next_line buffer = none) :
    next_reply buffer slot = (buffer, slot, .Incomplete) := by
  rw [next_reply.eq_def]
  split
  · rename_i line2 rst2 hl2
    rw [hl] at hl2
    simp at hl2
  · rfl

theorem next_reply_eq_some {buffer line rst : List Nat} {slot : Option Reply}
    (hl : next_line buffer = some (line, rst)) :
    next_reply buffer slot =
      match ReplyLine.try_from line with
      | .err => (rst, slot, .ParseError)
      | .panicked => (rst, slot, .Panicked)
      | .ok l =>
        if l.is_end_line then
          (rst, none, .Complete (match slot with | some r => r.append l | none => Reply.new l))
        else next_reply rst (some (match slot with | some r => r.append l | none => Reply.new l)) := by
  rw [next_reply.eq_def]
  split
  · rename_i line2 rst2 hl2
    rw [hl] at hl2
    cases hl2
    rfl
  · rename_i hl2
    rw [hl] at hl2
    simp at hl2

theorem next_body_some_length {buffer body rest body2 b : List Nat}
    (h : next_body buffer body = (rest, body2, some b)) : rest.length < buffer.length := by
  obtain ⟨n, hk⟩ : ∃ n, buffer.length = n := ⟨_, rfl⟩
  induction n using Nat.strong_induction_on generalizing buffer body rest body2 b with
  | _ n ih =>
    subst hk
    cases hl : next_line buffer with
    | none =>
      rw [next_body_eq_none hl] at h
      simp at h
    | some p =>
      obtain ⟨line, rst⟩ := p
      rw [next_body_eq_some hl] at h
      have hlen := next_line_length hl
      by_cases hend : (!body.isEmpty && (line == [46])) = true
      · rw [if_pos hend] at h
        cases h
        omega
      · rw [if_neg hend] at h
        have := ih rst.length (by omega) h rfl
        omega

theorem next_reply_complete_length {buffer rest : List Nat} {slot slot2 : Option Reply}
    {r : Reply} (h : next_reply buffer slot = (rest, slot2, .Complete r)) :
    rest.length < buffer.length := by
  obtain ⟨n, hk⟩ : ∃ n, buffer.length = n := ⟨_, rfl⟩
  induction n using Nat.strong_induction_on generalizing buffer slot rest slot2 r with
  | _ n ih =>
    subst hk
    cases hl : next_line buffer with
    | none =>
      rw [next_reply_eq_none hl] at h
      simp at h
    | some p =>
      obtain ⟨line, rst⟩ := p
      rw [next_reply_eq_some hl] at h
      have hlen := next_line_length hl
      cases hp : ReplyLine.try_from line with
      | err =>
        simp only [hp] at h
        simp at h
      | panicked =>
        simp only [hp] at h
        simp at h
      | ok l =>
        simp only [hp] at h
        by_cases hend : l.is_end_line = true
        · rw [if_pos hend] at h
          cases h
          omega
        · rw [if_neg hend] at h
          have := ih rst.length (by omega) h rfl
          omega

theorem Command.handle_reply_preserves_upstream (c : Command) (s : Session) (r : Reply) :
    (c.handle_reply s r).upstream_buffer = s.upstream_buffer := by
  cases c <;> simp only [Command.handle_reply, Session.reset] <;> (try split) <;> rfl

theorem Session.handle_reply_upstream_buffer {s s2 : Session} {r : Reply}
    (h : s.handle_reply r = some s2) : s2.upstream_buffer = s.upstream_buffer := by
  unfold Session.handle_reply at h
  cases hp : s.pending_replies with
  | nil => rw [hp] at h; simp at h
  | cons pending rest =>
    rw [hp] at h
    cases pending with
    | Connect => cases h; rfl
    | Command cmd =>
      cases h
      exact Command.handle_reply_preserves_upstream cmd _ r
    | Commit tx => cases h; rfl

/-- The drain loop of `Session::on_downstream_data`: while in `Connect`
or `Command` mode, repeatedly extract and parse commands; while in
`Data` mode, accumulate body lines; a parse error triggers `fallback`;
in `PassThrough` do nothing. -/
def Session.drain_downstream (s : Session) : Session :=
  match s.mode with
  | .Connect | .Command =>
    match h : next_command s.downstream_buffer with
    | (rest, .Got cmd) =>
      Session.drain_downstream
        { s with downstream_buffer := rest,
                 events := s.events ++ [.SmtpCommand cmd.verb],
                 pending_replies := s.pending_replies ++ [.Command cmd] }
    | (rest, .Incomplete) => { s with downstream_buffer := rest }
    | (rest, .ParseError) => Session.fallback { s with downstream_buffer := rest }
  | .Data =>
    match h : Smtp.next_body s.downstream_buffer s.next_body with
    | (rest, body2, some b) =>
      let tx := s.active_transaction.getD default
      Session.drain_downstream
        { s with downstream_buffer := rest,
                 next_body := body2,
                 active_transaction := none,
                 pending_replies := s.pending_replies ++ [.Commit { tx with body := b }],
                 events := s.events ++ [.SmtpTransactionCommit],
                 mode := .Command }
    | (rest, body2, none) => { s with downstream_buffer := rest, next_body := body2 }
  | .PassThrough => s
termination_by s.downstream_buffer.length
decreasing_by
  all_goals first
    | exact next_command_got_length h
    | exact next_body_some_length h

/-- The drain loop of `Session::on_upstream_data`: while not in
`PassThrough`, repeatedly assemble complete replies and correlate each
against the front of the pending-reply queue; parse errors and
empty-queue replies trigger `fallback`; `none` models a process abort
(reply-line panic). -/
def Session.drain_upstream (s : Session) : Option Session :=
  match s.mode with
  | .PassThrough => some s
  | .Connect | .Command | .Data =>
    match h : Smtp.next_reply s.upstream_buffer s.next_reply with
    | (rest, slot2, .Incomplete) => some { s with upstream_buffer := rest, next_reply := slot2 }
    | (rest, slot2, .ParseError) =>
      some (Session.fallback { s with upstream_buffer := rest, next_reply := slot2 })
    | (_, _, .Panicked) => none
    | (rest, _, .Complete r) =>
      match h2 : Session.handle_reply { s with upstream_buffer := rest, next_reply := none } r with
      | some s2 => Session.drain_upstream s2
      | none => some (Session.fallback { s with upstream_buffer := rest, next_reply := none })
termination_by s.upstream_buffer.length
decreasing_by
  all_goals
    have h3 := Session.handle_reply_upstream_buffer h2
    have h4 := next_reply_complete_length h
    rw [h3]
    exact h4

/-- `Session::on_downstream_data`: append the new bytes to the
downstream buffer (discarding them in `PassThrough`), then drain. -/
def Session.on_downstream_data (s : Session) (new_data : List Nat) : Session :=
  match s.mode with
  | .PassThrough => s
  | .Connect | .Command | .Data =>
    Session.drain_downstream { s with downstream_buffer := s.downstream_buffer ++ new_data }

/-- `Session::on_upstream_data`: append the new bytes to the upstream
buffer (discarding them in `PassThrough`), then drain. -/
def Session.on_upstream_data (s : Session) (new_data : List Nat) : Option Session :=
  match s.mode with
  | .PassThrough => some s
  | .Connect | .Command | .Data =>
    Session.drain_upstream { s with upstream_buffer := s.upstream_buffer ++ new_data }

/-- A wire line: payload bytes followed by the `<CR><LF>` terminator. -/
def line_wire (w : List Nat) : List Nat := w ++ CR_LF

/-- The wire bytes of a sequence of lines. -/
def lines_wire (ws : List (List Nat)) : List Nat := (ws.map line_wire).flatten

/-- The wire bytes of a sequence of replies, each given by its lines. -/
def replies_wire (wss : List (List (List Nat))) : List Nat := (wss.map lines_wire).flatten

/-- `ws` is the wire form of the logical reply `r`: zero or more valid
continuation lines (continuation flag `-`) followed by one valid last
line, each payload free of embedded `<CR><LF>`. -/
def wf_reply_wire (ws : List (List Nat)) (r : Reply) : Prop :=
  ∃ (cont : List (List Nat)) (cls : List ReplyLine) (w : List Nat) (l : ReplyLine),
    ws = cont ++ [w] ∧ r = ⟨cls ++ [l]⟩ ∧
    List.Forall₂
      (fun wi li => next_line wi = none ∧ ReplyLine.try_from wi = .ok li ∧ li.last = false)
      cont cls ∧
    next_line w = none ∧ ReplyLine.try_from w = .ok l ∧ l.last = true

/-- The sink event that `Session::handle_reply` emits when matching a
completed reply of code `code` against the pending entry `p`. -/
def match_event (p : PendingReply) (code : ReplyCode) : Event :=
  match p with
  | .Connect => .SmtpConnectReply code
  | .Command c => .SmtpCommandReply c.verb code
  | .Commit _ => .SmtpTransactionCommitReply code

/-- Matching reply `r` against pending entry `p` does not disable
inspection: `p` is not a positively-answered `STARTTLS` or unknown
command. -/
def keeps_inspecting (p : PendingReply) (r : Reply) : Prop :=
  match p with
  | .Command .StartTls => r.code.response_type.is_positive = false
  | .Command (.Unknown _ _) => r.code.response_type.is_positive = false
  | _ => True

/-- Feed a list of upstream chunks one call at a time. -/
def process_chunks (s : Session) : List (List Nat) → Option Session
  | [] => some s
  | c :: cs => (s.on_upstream_data c).bind (fun s1 => process_chunks s1 cs)

/-- The in-progress reply slot after absorbing the reply lines `ls` one
by one, as `Session::next_reply` does. -/
def reply_extend (slot : Option Reply) : List ReplyLine → Option Reply
  | [] => slot
  | l :: ls =>
    reply_extend (some (match slot with | some r => r.append l | none => Reply.new l)) ls

theorem drain_downstream_pass {s : Session} (hm : s.mode = .PassThrough) :
    s.drain_downstream = s := by
  rw [Session.drain_downstream.eq_def, hm]

theorem drain_downstream_got {s : Session} {rest : List Nat} {cmd : Command}
    (hm : s.mode = .Connect ∨ s.mode = .Command)
    (hc : next_command s.downstream_buffer = (rest, .Got cmd)) :
    s.drain_downstream = Session.drain_downstream
      { s with downstream_buffer := rest,
               events := s.events ++ [.SmtpCommand cmd.verb],
               pending_replies := s.pending_replies ++ [.Command cmd] } := by
  rcases hm with hm | hm <;>
  · rw [Session.drain_downstream.eq_def, hm]
    split <;> rename_i hmm <;> cases hmm <;>
      (split <;> rename_i heq <;> rw [hc] at heq <;> cases heq <;> rfl)

theorem drain_downstream_incomplete {s : Session} {rest : List Nat}
    (hm : s.mode = .Connect ∨ s.mode = .Command)
    (hc : next_command s.downstream_buffer = (rest, .Incomplete)) :
    s.drain_downstream = { s with downstream_buffer := rest } := by
  rcases hm with hm | hm <;>
  · rw [Session.drain_downstream.eq_def, hm]
    split <;> rename_i hmm <;> cases hmm <;>
      (split <;> rename_i heq <;> rw [hc] at heq <;> cases heq <;> rfl)

theorem drain_downstream_parse_error {s : Session} {rest : List Nat}
    (hm : s.mode = .Connect ∨ s.mode = .Command)
    (hc : next_command s.downstream_buffer = (rest, .ParseError)) :
    s.drain_downstream = Session.fallback { s with downstream_buffer := rest } := by
  rcases hm with hm | hm <;>
  · rw [Session.drain_downstream.eq_def, hm]
    split <;> rename_i hmm <;> cases hmm <;>
      (split <;> rename_i heq <;> rw [hc] at heq <;> cases heq <;> rfl)

theorem drain_downstream_data_some {s : Session} {rest body2 b : List Nat}
    (hm : s.mode = .Data)
    (hc : next_body s.downstream_buffer s.next_body = (rest, body2, some b)) :
    s.drain_downstream = Session.drain_downstream
      { s with downstream_buffer := rest,
               next_body := body2,
               active_transaction := none,
               pending_replies := s.pending_replies ++
                 [.Commit { s.active_transaction.getD default with body := b }],
               events := s.events ++ [.SmtpTransactionCommit],
               mode := .Command } := by
  rw [Session.drain_downstream.eq_def, hm]
  split <;> rename_i hmm <;> cases hmm <;>
    (split <;> rename_i heq <;> rw [hc] at heq <;> cases heq <;> rfl)

theorem drain_downstream_data_none {s : Session} {rest body2 : List Nat}
    (hm : s.mode = .Data)
    (hc : next_body s.downstream_buffer s.next_body = (rest, body2, none)) :
    s.drain_downstream = { s with downstream_buffer := rest, next_body := body2 } := by
  rw [Session.drain_downstream.eq_def, hm]
  split <;> rename_i hmm <;> cases hmm <;>
    (split <;> rename_i heq <;> rw [hc] at heq <;> cases heq <;> rfl)

theorem drain_upstream_pass {s : Session} (hm : s.mode = .PassThrough) :
    s.drain_upstream = some s := by
  rw [Session.drain_upstream.eq_def, hm]

theorem drain_upstream_incomplete {s : Session} {rest : List Nat} {slot2 : Option Reply}
    (hm : s.mode ≠ .PassThrough)
    (hr : next_reply s.upstream_buffer s.next_reply = (rest, slot2, .Incomplete)) :
    s.drain_upstream = some { s with upstream_buffer := rest, next_reply := slot2 } := by
  cases hmode : s.mode <;> try exact absurd hmode hm
  all_goals
    rw [Session.drain_upstream.eq_def, hmode]
    split <;> rename_i hmm <;> cases hmm <;>
      (split <;> rename_i heq <;> rw [hr] at heq <;> cases heq <;> rfl)

theorem drain_upstream_parse_error {s : Session} {rest : List Nat} {slot2 : Option Reply}
    (hm : s.mode ≠ .PassThrough)
    (hr : next_reply s.upstream_buffer s.next_reply = (rest, slot2, .ParseError)) :
    s.drain_upstream =
      some (Session.fallback { s with upstream_buffer := rest, next_reply := slot2 }) := by
  cases hmode : s.mode <;> try exact absurd hmode hm
  all_goals
    rw [Session.drain_upstream.eq_def, hmode]
    split <;> rename_i hmm <;> cases hmm <;>
      (split <;> rename_i heq <;> rw [hr] at heq <;> cases heq <;> rfl)

theorem drain_upstream_panicked {s : Session} {rest : List Nat} {slot2 : Option Reply}
    (hm : s.mode ≠ .PassThrough)
    (hr : next_reply s.upstream_buffer s.next_reply = (rest, slot2, .Panicked)) :
    s.drain_upstream = none := by
  cases hmode : s.mode <;> try exact absurd hmode hm
  all_goals
    rw [Session.drain_upstream.eq_def, hmode]
    split <;> rename_i hmm <;> cases hmm <;>
      (split <;> rename_i heq <;> rw [hr] at heq <;> cases heq <;> rfl)

theorem drain_upstream_complete_ok {s s2 : Session} {rest : List Nat}
    {slot2 : Option Reply} {r : Reply}
    (hm : s.mode ≠ .PassThrough)
    (hr : next_reply s.upstream_buffer s.next_reply = (rest, slot2, .Complete r))
    (hh : Session.handle_reply { s with upstream_buffer := rest, next_reply := none } r = some s2) :
    s.drain_upstream = s2.drain_upstream := by
  cases hmode : s.mode <;> try exact absurd hmode hm
  all_goals
    rw [hmode] at hh
    rw [Session.drain_upstream.eq_def, hmode]
    split <;> rename_i hmm <;> cases hmm <;>
      (split <;> rename_i heq <;> rw [hr] at heq <;> cases heq) <;>
      (split <;> rename_i heq2 <;> rw [hh] at heq2 <;> cases heq2 <;> rfl)

theorem drain_upstream_complete_err {s : Session} {rest : List Nat}
    {slot2 : Option Reply} {r : Reply}
    (hm : s.mode ≠ .PassThrough)
    (hr : next_reply s.upstream_buffer s.next_reply = (rest, slot2, .Complete r))
    (hh : Session.handle_reply { s with upstream_buffer := rest, next_reply := none } r = none) :
    s.drain_upstream =
      some (Session.fallback { s with upstream_buffer := rest, next_reply := none }) := by
  cases hmode : s.mode <;> try exact absurd hmode hm
  all_goals
    rw [hmode] at hh
    rw [Session.drain_upstream.eq_def, hmode]
    split <;> rename_i hmm <;> cases hmm <;>
      (split <;> rename_i heq <;> rw [hr] at heq <;> cases heq) <;>
      (split <;> rename_i heq2 <;> rw [hh] at heq2 <;> cases heq2 <;> rfl)

theorem on_downstream_data_eq {s : Session} {d : List Nat} (hm : s.mode ≠ .PassThrough) :
    s.on_downstream_data d =
      Session.drain_downstream { s with downstream_buffer := s.downstream_buffer ++ d } := by
  cases hmode : s.mode <;> try exact absurd hmode hm
  all_goals rw [Session.on_downstream_data, hmode]

theorem on_downstream_data_pass {s : Session} {d : List Nat} (hm : s.mode = .PassThrough) :
    s.on_downstream_data d = s := by
  rw [Session.on_downstream_data, hm]

theorem on_upstream_data_eq {s : Session} {d : List Nat} (hm : s.mode ≠ .PassThrough) :
    s.on_upstream_data d =
      Session.drain_upstream { s with upstream_buffer := s.upstream_buffer ++ d } := by
  cases hmode : s.mode <;> try exact absurd hmode hm
  all_goals rw [Session.on_upstream_data, hmode]

theorem on_upstream_data_pass {s : Session} {d : List Nat} (hm : s.mode = .PassThrough) :
    s.on_upstream_data d = some s := by
  rw [Session.on_upstream_data, hm]

theorem next_line_append {buf line rst : List Nat} (e : List Nat)
    (h : next_line buf = some (line, rst)) :
    next_line (buf ++ e) = some (line, rst ++ e) := by
  induction buf generalizing line rst with
  | nil => simp [next_line] at h
  | cons a t ih =>
    cases t with
    | nil => simp [next_line] at h
    | cons b r =>
      rw [next_line] at h
      by_cases hcr : a = 13 ∧ b = 10
      · rw [if_pos hcr] at h
        cases h
        simp only [List.cons_append]
        rw [next_line, if_pos hcr]
      · rw [if_neg hcr] at h
        cases hrec : next_line (b :: r) with
        | none => rw [hrec] at h; cases h
        | some p =>
          obtain ⟨l2, r2⟩ := p
          rw [hrec] at h
          cases h
          have h2 := ih hrec
          simp only [List.cons_append] at h2 ⊢
          rw [next_line, if_neg hcr, h2]

theorem next_command_append_got {buf rest : List Nat} {cmd : Command} (e : List Nat)
    (h : next_command buf = (rest, .Got cmd)) :
    next_command (buf ++ e) = (rest ++ e, .Got cmd) := by
  unfold next_command at h ⊢
  cases hl : next_line buf with
  | none => simp [hl] at h
  | some p =>
    obtain ⟨line, r⟩ := p
    simp only [hl] at h
    simp only [next_line_append e hl]
    cases hc : Command.try_from line with
    | none => simp [hc] at h
    | some c =>
      simp only [hc] at h ⊢
      cases h
      rfl

theorem next_command_append_err {buf rest : List Nat} (e : List Nat)
    (h : next_command buf = (rest, .ParseError)) :
    next_command (buf ++ e) = (rest ++ e, .ParseError) := by
  unfold next_command at h ⊢
  cases hl : next_line buf with
  | none => simp [hl] at h
  | some p =>
    obtain ⟨line, r⟩ := p
    simp only [hl] at h
    simp only [next_line_append e hl]
    cases hc : Command.try_from line with
    | none =>
      simp only [hc] at h ⊢
      cases h
      rfl
    | some c => simp [hc] at h

theorem next_body_append_some {buf body rest body2 b : List Nat} (e : List Nat)
    (h : next_body buf body = (rest, body2, some b)) :
    next_body (buf ++ e) body = (rest ++ e, body2, some b) := by
  obtain ⟨n, hk⟩ : ∃ n, buf.length = n := ⟨_, rfl⟩
  induction n using Nat.strong_induction_on generalizing buf body rest body2 b with
  | _ n ih =>
    subst hk
    cases hl : next_line buf with
    | none =>
      rw [next_body_eq_none hl] at h
      simp at h
    | some p =>
      obtain ⟨line, rst⟩ := p
      rw [next_body_eq_some hl] at h
      rw [next_body_eq_some (next_line_append e hl)]
      by_cases hend : (!body.isEmpty && (line == [46])) = true
      · rw [if_pos hend] at h ⊢
        cases h
        rfl
      · rw [if_neg hend] at h ⊢
        have := next_line_length hl
        exact ih rst.length (by omega) h rfl

theorem next_body_append_none {buf body rest body2 : List Nat} (e : List Nat)
    (h : next_body buf body = (rest, body2, none)) :
    next_body (buf ++ e) body = next_body (rest ++ e) body2 := by
  obtain ⟨n, hk⟩ : ∃ n, buf.length = n := ⟨_, rfl⟩
  induction n using Nat.strong_induction_on generalizing buf body rest body2 with
  | _ n ih =>
    subst hk
    cases hl : next_line buf with
    | none =>
      rw [next_body_eq_none hl] at h
      cases h
      rfl
    | some p =>
      obtain ⟨line, rst⟩ := p
      rw [next_body_eq_some hl] at h
      rw [next_body_eq_some (next_line_append e hl)]
      by_cases hend : (!body.isEmpty && (line == [46])) = true
      · rw [if_pos hend] at h
        simp at h
      · rw [if_neg hend] at h ⊢
        have := next_line_length hl
        exact ih rst.length (by omega) h rfl

theorem next_reply_append_complete {buf rest : List Nat} {slot slot2 : Option Reply}
    {r : Reply} (e : List Nat)
    (h : next_reply buf slot = (rest, slot2, .Complete r)) :
    next_reply (buf ++ e) slot = (rest ++ e, slot2, .Complete r) := by
  obtain ⟨n, hk⟩ : ∃ n, buf.length = n := ⟨_, rfl⟩
  induction n using Nat.strong_induction_on generalizing buf slot rest slot2 r with
  | _ n ih =>
    subst hk
    cases hl : next_line buf with
    | none =>
      rw [next_reply_eq_none hl] at h
      simp at h
    | some p =>
      obtain ⟨line, rst⟩ := p
      rw [next_reply_eq_some hl] at h
      rw [next_reply_eq_some (next_line_append e hl)]
      cases hp : ReplyLine.try_from line with
      | err => simp only [hp] at h; simp at h
      | panicked => simp only [hp] at h; simp at h
      | ok l =>
        simp only [hp] at h ⊢
        by_cases hend : l.is_end_line = true
        · rw [if_pos hend] at h ⊢
          cases h
          rfl
        · rw [if_neg hend] at h ⊢
          have := next_line_length hl
          exact ih rst.length (by omega) h rfl

theorem next_reply_append_err {buf rest : List Nat} {slot slot2 : Option Reply} (e : List Nat)
    (h : next_reply buf slot = (rest, slot2, .ParseError)) :
    next_reply (buf ++ e) slot = (rest ++ e, slot2, .ParseError) := by
  obtain ⟨n, hk⟩ : ∃ n, buf.length = n := ⟨_, rfl⟩
  induction n using Nat.strong_induction_on generalizing buf slot rest slot2 with
  | _ n ih =>
    subst hk
    cases hl : next_line buf with
    | none =>
      rw [next_reply_eq_none hl] at h
      simp at h
    | some p =>
      obtain ⟨line, rst⟩ := p
      rw [next_reply_eq_some hl] at h
      rw [next_reply_eq_some (next_line_append e hl)]
      cases hp : ReplyLine.try_from line with
      | err =>
        simp only [hp] at h ⊢
        cases h
        rfl
      | panicked => simp only [hp] at h; simp at h
      | ok l =>
        simp only [hp] at h ⊢
        by_cases hend : l.is_end_line = true
        · rw [if_pos hend] at h
          simp at h
        · rw [if_neg hend] at h ⊢
          have := next_line_length hl
          exact ih rst.length (by omega) h rfl

theorem next_reply_append_panicked {buf rest : List Nat} {slot slot2 : Option Reply} (e : List Nat)
    (h : next_reply buf slot = (rest, slot2, .Panicked)) :
    next_reply (buf ++ e) slot = (rest ++ e, slot2, .Panicked) := by
  obtain ⟨n, hk⟩ : ∃ n, buf.length = n := ⟨_, rfl⟩
  induction n using Nat.strong_induction_on generalizing buf slot rest slot2 with
  | _ n ih =>
    subst hk
    cases hl : next_line buf with
    | none =>
      rw [next_reply_eq_none hl] at h
      simp at h
    | some p =>
      obtain ⟨line, rst⟩ := p
      rw [next_reply_eq_some hl] at h
      rw [next_reply_eq_some (next_line_append e hl)]
      cases hp : ReplyLine.try_from line with
      | err => simp only [hp] at h; simp at h
      | panicked =>
        simp only [hp] at h ⊢
        cases h
        rfl
      | ok l =>
        simp only [hp] at h ⊢
        by_cases hend : l.is_end_line = true
        · rw [if_pos hend] at h
          simp at h
        · rw [if_neg hend] at h ⊢
          have := next_line_length hl
          exact ih rst.length (by omega) h rfl

theorem next_reply_append_incomplete {buf rest : List Nat} {slot slot2 : Option Reply}
    (e : List Nat)
    (h : next_reply buf slot = (rest, slot2, .Incomplete)) :
    next_reply (buf ++ e) slot = next_reply (rest ++ e) slot2 := by
  obtain ⟨n, hk⟩ : ∃ n, buf.length = n := ⟨_, rfl⟩
  induction n using Nat.strong_induction_on generalizing buf slot rest slot2 with
  | _ n ih =>
    subst hk
    cases hl : next_line buf with
    | none =>
      rw [next_reply_eq_none hl] at h
      cases h
      rfl
    | some p =>
      obtain ⟨line, rst⟩ := p
      rw [next_reply_eq_some hl] at h
      rw [next_reply_eq_some (next_line_append e hl)]
      cases hp : ReplyLine.try_from line with
      | err => simp only [hp] at h; simp at h
      | panicked => simp only [hp] at h; simp at h
      | ok l =>
        simp only [hp] at h ⊢
        by_cases hend : l.is_end_line = true
        · rw [if_pos hend] at h
          simp at h
        · rw [if_neg hend] at h ⊢
          have := next_line_length hl
          exact ih rst.length (by omega) h rfl

theorem next_command_incomplete_eq {buf rest : List Nat}
    (h : next_command buf = (rest, .Incomplete)) : rest = buf := by
  unfold next_command at h
  cases hl : next_line buf with
  | none =>
    simp only [hl] at h
    cases h
    rfl
  | some p =>
    obtain ⟨line, r⟩ := p
    simp only [hl] at h
    cases hc : Command.try_from line with
    | none => simp [hc] at h
    | some c => simp [hc] at h

theorem Command.handle_reply_with_upstream (c : Command) (t : Session) (r : Reply) (u : List Nat) :
    c.handle_reply { t with upstream_buffer := u } r =
      { c.handle_reply t r with upstream_buffer := u } := by
  cases c <;> simp only [Command.handle_reply, Session.reset] <;> (try split) <;> rfl

theorem Session.handle_reply_set_up (t : Session) (r : Reply) (u : List Nat) :
    Session.handle_reply { t with upstream_buffer := u } r =
      (Session.handle_reply t r).map (fun x => { x with upstream_buffer := u }) := by
  unfold Session.handle_reply
  cases hp : t.pending_replies with
  | nil => simp only [hp]; rfl
  | cons pending rest =>
    simp only [hp]
    cases pending with
    | Connect => rfl
    | Command cmd =>
      simp only [Option.map]
      exact congrArg some
        (Command.handle_reply_with_upstream cmd
          { t with pending_replies := rest,
                   events := t.events ++ [.SmtpCommandReply cmd.verb r.code] } r u)
    | Commit tx => rfl

/-- Chunk-composition for the downstream drain: draining a buffer
extended by `e` is the same as draining first and then (unless the drain
fell into `PassThrough`) draining again with `e` appended to the
leftover buffer. -/
theorem drain_downstream_append (s : Session) (e : List Nat) :
    Session.drain_downstream { s with downstream_buffer := s.downstream_buffer ++ e } =
      if s.drain_downstream.mode = .PassThrough then
        { s.drain_downstream with
            downstream_buffer := s.drain_downstream.downstream_buffer ++ e }
      else
        Session.drain_downstream
          { s.drain_downstream with
              downstream_buffer := s.drain_downstream.downstream_buffer ++ e } := by
  obtain ⟨n, hk⟩ : ∃ n, s.downstream_buffer.length = n := ⟨_, rfl⟩
  induction n using Nat.strong_induction_on generalizing s with
  | _ n ih =>
    subst hk
    by_cases hpt : s.mode = .PassThrough
    · rw [drain_downstream_pass (show ({ s with downstream_buffer := s.downstream_buffer ++ e } : Session).mode = .PassThrough from hpt),
          drain_downstream_pass hpt, if_pos hpt]
    · by_cases hdata : s.mode = .Data
      · rcases hb : Smtp.next_body s.downstream_buffer s.next_body with ⟨rest, body2, ob⟩
        cases ob with
        | none =>
          rcases hb2 : Smtp.next_body (rest ++ e) body2 with ⟨R, B, OB⟩
          have hLHS : Smtp.next_body (s.downstream_buffer ++ e) s.next_body = (R, B, OB) :=
            (next_body_append_none e hb).trans hb2
          rw [drain_downstream_data_none hdata hb]
          rw [if_neg (by simp [hdata])]
          show Session.drain_downstream { s with downstream_buffer := s.downstream_buffer ++ e } =
            Session.drain_downstream { s with downstream_buffer := rest ++ e, next_body := body2 }
          cases OB with
          | none =>
            rw [drain_downstream_data_none (show ({ s with downstream_buffer := s.downstream_buffer ++ e } : Session).mode = .Data from hdata) hLHS]
            rw [drain_downstream_data_none (show ({ s with downstream_buffer := rest ++ e, next_body := body2 } : Session).mode = .Data from hdata) hb2]
          | some b =>
            rw [drain_downstream_data_some (show ({ s with downstream_buffer := s.downstream_buffer ++ e } : Session).mode = .Data from hdata) hLHS]
            rw [drain_downstream_data_some (show ({ s with downstream_buffer := rest ++ e, next_body := body2 } : Session).mode = .Data from hdata) hb2]
        | some b =>
          have hstep := ih rest.length
            (by have := next_body_some_length hb; omega)
            { s with downstream_buffer := rest,
                     next_body := body2,
                     active_transaction := none,
                     pending_replies := s.pending_replies ++
                       [.Commit { s.active_transaction.getD default with body := b }],
                     events := s.events ++ [.SmtpTransactionCommit],
                     mode := .Command } rfl
          rw [drain_downstream_data_some (show ({ s with downstream_buffer := s.downstream_buffer ++ e } : Session).mode = .Data from hdata)
                (next_body_append_some e hb),
              drain_downstream_data_some hdata hb]
          exact hstep
      · have hcc : s.mode = .Connect ∨ s.mode = .Command := by
          cases hm2 : s.mode
          · exact Or.inl rfl
          · exact Or.inr rfl
          · exact absurd hm2 hdata
          · exact absurd hm2 hpt
        have hcc2 : ({ s with downstream_buffer := s.downstream_buffer ++ e } : Session).mode = .Connect ∨
            ({ s with downstream_buffer := s.downstream_buffer ++ e } : Session).mode = .Command := hcc
        rcases hc : next_command s.downstream_buffer with ⟨rest, step⟩
        cases step with
        | Incomplete =>
          have hre := next_command_incomplete_eq hc
          subst hre
          rw [drain_downstream_incomplete hcc hc]
          rw [if_neg (by rcases hcc with h | h <;> simp [h])]
        | ParseError =>
          rw [drain_downstream_parse_error hcc2 (next_command_append_err e hc),
              drain_downstream_parse_error hcc hc]
          rw [if_pos (show (Session.fallback { s with downstream_buffer := rest }).mode = .PassThrough from rfl)]
          rfl
        | Got cmd =>
          have hstep := ih rest.length
            (by have := next_command_got_length hc; omega)
            { s with downstream_buffer := rest,
                     events := s.events ++ [.SmtpCommand cmd.verb],
                     pending_replies := s.pending_replies ++ [.Command cmd] } rfl
          rw [drain_downstream_got hcc2 (next_command_append_got e hc),
              drain_downstream_got hcc hc]
          exact hstep

/-- Chunk-composition for the upstream drain: draining a buffer extended
by `e` is the same as draining first and then (unless the drain fell into
`PassThrough` or panicked) draining again with `e` appended to the
leftover buffer. -/
theorem drain_upstream_append (s : Session) (e : List Nat) :
    Session.drain_upstream { s with upstream_buffer := s.upstream_buffer ++ e } =
      (s.drain_upstream).bind (fun s1 =>
        if s1.mode = .PassThrough then
          some { s1 with upstream_buffer := s1.upstream_buffer ++ e }
        else Session.drain_upstream { s1 with upstream_buffer := s1.upstream_buffer ++ e }) := by
  obtain ⟨n, hk⟩ : ∃ n, s.upstream_buffer.length = n := ⟨_, rfl⟩
  induction n using Nat.strong_induction_on generalizing s with
  | _ n ih =>
    subst hk
    by_cases hpt : s.mode = .PassThrough
    · rw [drain_upstream_pass (show ({ s with upstream_buffer := s.upstream_buffer ++ e } : Session).mode = .PassThrough from hpt),
          drain_upstream_pass hpt]
      simp only [Option.some_bind]
      rw [if_pos hpt]
    · rcases hr : Smtp.next_reply s.upstream_buffer s.next_reply with ⟨rest, slot2, step⟩
      cases step with
      | Incomplete =>
        rw [drain_upstream_incomplete hpt hr]
        simp only [Option.some_bind]
        rw [if_neg (show ¬({ s with upstream_buffer := rest, next_reply := slot2 } : Session).mode = .PassThrough from hpt)]
        show Session.drain_upstream { s with upstream_buffer := s.upstream_buffer ++ e } =
          Session.drain_upstream { s with upstream_buffer := rest ++ e, next_reply := slot2 }
        rcases hr2 : Smtp.next_reply (rest ++ e) slot2 with ⟨R, S2, St⟩
        have hLHS : Smtp.next_reply (s.upstream_buffer ++ e) s.next_reply = (R, S2, St) :=
          (next_reply_append_incomplete e hr).trans hr2
        cases St with
        | Incomplete =>
          rw [drain_upstream_incomplete (show ¬({ s with upstream_buffer := s.upstream_buffer ++ e } : Session).mode = .PassThrough from hpt) hLHS,
              drain_upstream_incomplete (show ¬({ s with upstream_buffer := rest ++ e, next_reply := slot2 } : Session).mode = .PassThrough from hpt) hr2]
        | ParseError =>
          rw [drain_upstream_parse_error (show ¬({ s with upstream_buffer := s.upstream_buffer ++ e } : Session).mode = .PassThrough from hpt) hLHS,
              drain_upstream_parse_error (show ¬({ s with upstream_buffer := rest ++ e, next_reply := slot2 } : Session).mode = .PassThrough from hpt) hr2]
        | Panicked =>
          rw [drain_upstream_panicked (show ¬({ s with upstream_buffer := s.upstream_buffer ++ e } : Session).mode = .PassThrough from hpt) hLHS,
              drain_upstream_panicked (show ¬({ s with upstream_buffer := rest ++ e, next_reply := slot2 } : Session).mode = .PassThrough from hpt) hr2]
        | Complete r =>
          cases hh : Session.handle_reply { s with upstream_buffer := R, next_reply := none } r with
          | none =>
            rw [drain_upstream_complete_err (show ¬({ s with upstream_buffer := s.upstream_buffer ++ e } : Session).mode = .PassThrough from hpt) hLHS hh,
                drain_upstream_complete_err (show ¬({ s with upstream_buffer := rest ++ e, next_reply := slot2 } : Session).mode = .PassThrough from hpt) hr2 hh]
          | some s2 =>
            rw [drain_upstream_complete_ok (show ¬({ s with upstream_buffer := s.upstream_buffer ++ e } : Session).mode = .PassThrough from hpt) hLHS hh,
                drain_upstream_complete_ok (show ¬({ s with upstream_buffer := rest ++ e, next_reply := slot2 } : Session).mode = .PassThrough from hpt) hr2 hh]
      | ParseError =>
        rw [drain_upstream_parse_error (show ¬({ s with upstream_buffer := s.upstream_buffer ++ e } : Session).mode = .PassThrough from hpt)
              (next_reply_append_err e hr),
            drain_upstream_parse_error hpt hr]
        simp only [Option.some_bind]
        rw [if_pos (show (Session.fallback { s with upstream_buffer := rest, next_reply := slot2 }).mode = .PassThrough from rfl)]
        rfl
      | Panicked =>
        rw [drain_upstream_panicked (show ¬({ s with upstream_buffer := s.upstream_buffer ++ e } : Session).mode = .PassThrough from hpt)
              (next_reply_append_panicked e hr),
            drain_upstream_panicked hpt hr]
        rfl
      | Complete r =>
        cases hh : Session.handle_reply { s with upstream_buffer := rest, next_reply := none } r with
        | none =>
          have hh2 : Session.handle_reply { s with upstream_buffer := rest ++ e, next_reply := none } r = none := by
            rw [Session.handle_reply_set_up { s with upstream_buffer := rest, next_reply := none } r (rest ++ e)]
            rw [hh]
            rfl
          rw [drain_upstream_complete_err (show ¬({ s with upstream_buffer := s.upstream_buffer ++ e } : Session).mode = .PassThrough from hpt)
                (next_reply_append_complete e hr) hh2,
              drain_upstream_complete_err hpt hr hh]
          simp only [Option.some_bind]
          rw [if_pos (show (Session.fallback { s with upstream_buffer := rest, next_reply := none }).mode = .PassThrough from rfl)]
          rfl
        | some s2 =>
          have hh2 : Session.handle_reply { s with upstream_buffer := rest ++ e, next_reply := none } r =
              some { s2 with upstream_buffer := rest ++ e } := by
            rw [Session.handle_reply_set_up { s with upstream_buffer := rest, next_reply := none } r (rest ++ e)]
            rw [hh]
            rfl
          have hup : s2.upstream_buffer = rest := Session.handle_reply_upstream_buffer hh
          have hlen := next_reply_complete_length hr
          have hstep := ih s2.upstream_buffer.length (by rw [hup]; omega) s2 rfl
          rw [hup] at hstep
          rw [drain_upstream_complete_ok (show ¬({ s with upstream_buffer := s.upstream_buffer ++ e } : Session).mode = .PassThrough from hpt)
                (next_reply_append_complete e hr) hh2,
              drain_upstream_complete_ok hpt hr hh]
          exact hstep

theorem next_line_none_append {w : List Nat} (t : List Nat)
    (h : next_line w = none) :
    next_line (w ++ CR_LF ++ t) = some (w, t) := by
  induction w with
  | nil => simp [next_line, CR_LF]
  | cons a w2 ih =>
    cases w2 with
    | nil => simp [CR_LF, next_line]
    | cons c w3 =>
      rw [next_line] at h
      by_cases hcr : a = 13 ∧ c = 10
      · rw [if_pos hcr] at h
        cases h
      · rw [if_neg hcr] at h
        have h2 : next_line (c :: w3) = none := by
          cases hrec : next_line (c :: w3) with
          | none => rfl
          | some p =>
            obtain ⟨l2, r2⟩ := p
            rw [hrec] at h
            cases h
        have h3 := ih h2
        simp only [List.cons_append] at h3 ⊢
        rw [next_line, if_neg hcr, h3]

theorem reply_extend_some (r : Reply) (ls : List ReplyLine) :
    reply_extend (some r) ls = some ⟨r.lines ++ ls⟩ := by
  induction ls generalizing r with
  | nil => simp [reply_extend]
  | cons l ls ih =>
    rw [reply_extend]
    rw [ih]
    simp [Reply.append]

/-- Absorbing a block of valid continuation lines: the lines are drained
off the buffer and appended to the in-progress slot, and no reply is
emitted. -/
theorem next_reply_continuations
    (cont : List (List Nat)) (cls : List ReplyLine)
    (hwf : List.Forall₂
      (fun wi li => next_line wi = none ∧ ReplyLine.try_from wi = .ok li ∧ li.last = false)
      cont cls) :
    ∀ (slot : Option Reply) (extra : List Nat),
      next_reply (lines_wire cont ++ extra) slot =
        next_reply extra (reply_extend slot cls) := by
  induction hwf with
  | nil =>
    intro slot extra
    simp [lines_wire, reply_extend]
  | cons hwl hrest ih =>
    rename_i wi li cont2 cls2
    intro slot extra
    obtain ⟨hnl, hok, hlast⟩ := hwl
    have hline : next_line (lines_wire (wi :: cont2) ++ extra) =
        some (wi, lines_wire cont2 ++ extra) := by
      have := next_line_none_append (lines_wire cont2 ++ extra) hnl
      simpa [lines_wire, line_wire, List.append_assoc] using this
    rw [next_reply_eq_some hline]
    simp only [hok]
    rw [if_neg (by simp [ReplyLine.is_end_line, hlast])]
    rw [ih]
    rfl

/-- Parsing the wire form of one well-formed reply emits exactly that
reply, consumes exactly its bytes, and clears the slot. -/
theorem next_reply_wf_wire {ws : List (List Nat)} {r : Reply}
    (hwf : wf_reply_wire ws r) (extra : List Nat) :
    next_reply (lines_wire ws ++ extra) none = (extra, none, .Complete r) := by
  obtain ⟨cont, cls, w, l, hws, hr, hcont, hnl, hok, hlast⟩ := hwf
  subst hws hr
  have hcw : lines_wire (cont ++ [w]) ++ extra =
      lines_wire cont ++ (line_wire w ++ extra) := by
    simp [lines_wire, List.append_assoc]
  rw [hcw, next_reply_continuations cont cls hcont]
  have hline : next_line (line_wire w ++ extra) = some (w, extra) := by
    have := next_line_none_append extra hnl
    simpa [line_wire, List.append_assoc] using this
  rw [next_reply_eq_some hline]
  simp only [hok]
  rw [if_pos (by simp [ReplyLine.is_end_line, hlast])]
  cases hslot : reply_extend none cls with
  | none =>
    cases cls with
    | nil => simp [Reply.new]
    | cons c cs => rw [reply_extend, reply_extend_some] at hslot; cases hslot
  | some racc =>
    cases cls with
    | nil => simp [reply_extend] at hslot
    | cons c cs =>
      rw [reply_extend, reply_extend_some] at hslot
      cases hslot
      simp [Reply.append, Reply.new]

theorem Command.handle_reply_fields (c : Command) (t : Session) (r : Reply) :
    (c.handle_reply t r).pending_replies = t.pending_replies ∧
    (c.handle_reply t r).events = t.events ∧
    (c.handle_reply t r).upstream_buffer = t.upstream_buffer ∧
    (c.handle_reply t r).next_reply = t.next_reply ∧
    (c.handle_reply t r).downstream_buffer = t.downstream_buffer ∧
    (keeps_inspecting (.Command c) r → t.mode ≠ .PassThrough →
      (c.handle_reply t r).mode ≠ .PassThrough) := by
  cases c <;>
    (refine ⟨?_, ?_, ?_, ?_, ?_, ?_⟩ <;>
      simp only [Command.handle_reply, Session.reset, keeps_inspecting] <;>
      (try split) <;>
      simp_all)

theorem handle_reply_spec (s : Session) (r : Reply) (p : PendingReply)
    (ps : List PendingReply) (hp : s.pending_replies = p :: ps) :
    ∃ s2, s.handle_reply r = some s2 ∧
      s2.pending_replies = ps ∧
      s2.events = s.events ++ [match_event p r.code] ∧
      s2.upstream_buffer = s.upstream_buffer ∧
      s2.next_reply = s.next_reply ∧
      s2.downstream_buffer = s.downstream_buffer ∧
      (keeps_inspecting p r → s.mode ≠ .PassThrough → s2.mode ≠ .PassThrough) := by
  unfold Session.handle_reply
  simp only [hp]
  cases p with
  | Connect =>
    exact ⟨_, rfl, rfl, rfl, rfl, rfl, rfl, fun _ _ => by simp⟩
  | Command cmd =>
    have hf := Command.handle_reply_fields cmd
      { s with pending_replies := ps,
               events := s.events ++ [.SmtpCommandReply cmd.verb r.code] } r
    exact ⟨_, rfl, hf.1, hf.2.1, hf.2.2.1, hf.2.2.2.1, hf.2.2.2.2.1,
      fun hk hm => hf.2.2.2.2.2 hk hm⟩
  | Commit tx =>
    exact ⟨_, rfl, rfl, rfl, rfl, rfl, rfl, fun _ hm => hm⟩

/-- FIFO correlation at the drain level: a buffer holding the wire bytes
of replies `rs` is fully drained; each reply is matched, in order,
against the front of the pending queue, emitting exactly the matching
sink events. -/
theorem drain_upstream_fifo :
    ∀ (wss : List (List (List Nat))) (rs : List Reply) (s : Session),
      List.Forall₂ wf_reply_wire wss rs →
      s.mode ≠ .PassThrough →
      s.next_reply = none →
      s.upstream_buffer = replies_wire wss →
      rs.length ≤ s.pending_replies.length →
      List.Forall₂ keeps_inspecting (s.pending_replies.take rs.length) rs →
      ∃ s2, s.drain_upstream = some s2 ∧
        s2.pending_replies = s.pending_replies.drop rs.length ∧
        s2.events = s.events ++
          List.zipWith (fun p r => match_event p r.code)
            (s.pending_replies.take rs.length) rs ∧
        s2.upstream_buffer = [] ∧
        s2.next_reply = none ∧
        s2.downstream_buffer = s.downstream_buffer ∧
        s2.mode ≠ .PassThrough := by
  intro wss
  induction wss with
  | nil =>
    intro rs s hwf hpt hnr hup hlen hkeep
    cases hwf
    have hr : Smtp.next_reply s.upstream_buffer s.next_reply =
        (s.upstream_buffer, s.next_reply, .Incomplete) :=
      next_reply_eq_none (by rw [hup]; rfl)
    refine ⟨_, drain_upstream_incomplete hpt hr, ?_, ?_, ?_, ?_, ?_, ?_⟩ <;>
      simp [hup, hnr, hpt, replies_wire]
  | cons ws wss ih =>
    intro rs s hwf hpt hnr hup hlen hkeep
    cases hwf with
    | cons hw hrest =>
      rename_i r rs2
      have hbuf : s.upstream_buffer = lines_wire ws ++ replies_wire wss := by
        rw [hup]; simp [replies_wire]
      have hr : Smtp.next_reply s.upstream_buffer s.next_reply =
          (replies_wire wss, none, .Complete r) := by
        rw [hbuf, hnr]
        exact next_reply_wf_wire hw (replies_wire wss)
      obtain ⟨p, ps, hp⟩ : ∃ p ps, s.pending_replies = p :: ps := by
        cases hps : s.pending_replies with
        | nil => rw [hps] at hlen; simp at hlen
        | cons p ps => exact ⟨p, ps, rfl⟩
      obtain ⟨s2, hh, hpend2, hev2, hub2, hnr2, hdb2, hmode2⟩ :=
        handle_reply_spec { s with upstream_buffer := replies_wire wss, next_reply := none }
          r p ps hp
      rw [hp] at hkeep
      simp only [List.length_cons, List.take_succ_cons] at hkeep
      cases hkeep with
      | cons hkhead hktail =>
        have hmode2n : s2.mode ≠ .PassThrough := hmode2 hkhead hpt
        have hd := drain_upstream_complete_ok hpt hr hh
        rw [hp] at hlen
        simp only [List.length_cons, List.length_cons] at hlen
        have hlen2 : rs2.length ≤ s2.pending_replies.length := by
          rw [hpend2]; omega
        have hnr2n : s2.next_reply = none := hnr2.trans rfl
        have hub2n : s2.upstream_buffer = replies_wire wss := hub2.trans rfl
        have hkeep2 : List.Forall₂ keeps_inspecting
            (s2.pending_replies.take rs2.length) rs2 := by
          rw [hpend2]; exact hktail
        obtain ⟨s3, hd3, hp3, he3, hu3, hn3, hdb3, hm3⟩ :=
          ih rs2 s2 hrest hmode2n hnr2n hub2n hlen2 hkeep2
        refine ⟨s3, hd.trans hd3, ?_, ?_, hu3, hn3, ?_, hm3⟩
        · rw [hp3, hpend2, hp]
          simp
        · rw [he3, hev2, hpend2, hp]
          simp [match_event]
        · rw [hdb3, hdb2]

theorem next_reply_incomplete_no_line {buf rest : List Nat} {slot slot2 : Option Reply}
    (h : next_reply buf slot = (rest, slot2, .Incomplete)) :
    next_line rest = none := by
  obtain ⟨n, hk⟩ : ∃ n, buf.length = n := ⟨_, rfl⟩
  induction n using Nat.strong_induction_on generalizing buf slot rest slot2 with
  | _ n ih =>
    subst hk
    cases hl : next_line buf with
    | none =>
      rw [next_reply_eq_none hl] at h
      cases h
      exact hl
    | some p =>
      obtain ⟨line, rst⟩ := p
      rw [next_reply_eq_some hl] at h
      have hlen := next_line_length hl
      cases hp : ReplyLine.try_from line with
      | err => simp only [hp] at h; simp at h
      | panicked => simp only [hp] at h; simp at h
      | ok l =>
        simp only [hp] at h
        by_cases hend : l.is_end_line = true
        · rw [if_pos hend] at h
          simp at h
        · rw [if_neg hend] at h
          exact ih rst.length (by omega) h rfl

theorem drain_upstream_no_line {s s1 : Session}
    (hd : s.drain_upstream = some s1) (h1 : s1.mode ≠ .PassThrough) :
    next_line s1.upstream_buffer = none := by
  obtain ⟨n, hk⟩ : ∃ n, s.upstream_buffer.length = n := ⟨_, rfl⟩
  induction n using Nat.strong_induction_on generalizing s with
  | _ n ih =>
    subst hk
    by_cases hpt : s.mode = .PassThrough
    · rw [drain_upstream_pass hpt] at hd
      cases hd
      exact absurd hpt h1
    · rcases hr : Smtp.next_reply s.upstream_buffer s.next_reply with ⟨rest, slot2, step⟩
      cases step with
      | Incomplete =>
        rw [drain_upstream_incomplete hpt hr] at hd
        cases hd
        exact next_reply_incomplete_no_line hr
      | ParseError =>
        rw [drain_upstream_parse_error hpt hr] at hd
        cases hd
        exact absurd rfl h1
      | Panicked =>
        rw [drain_upstream_panicked hpt hr] at hd
        cases hd
      | Complete r =>
        cases hh : Session.handle_reply
            { s with upstream_buffer := rest, next_reply := none } r with
        | none =>
          rw [drain_upstream_complete_err hpt hr hh] at hd
          cases hd
          exact absurd rfl h1
        | some s2 =>
          rw [drain_upstream_complete_ok hpt hr hh] at hd
          have hup : s2.upstream_buffer = rest := Session.handle_reply_upstream_buffer hh
          have hlen := next_reply_complete_length hr
          exact ih s2.upstream_buffer.length (by rw [hup]; omega) hd rfl

/-- Feeding the chunks of an upstream byte stream one call at a time
gives the same result as one call with the concatenation, provided the
session never leaves inspection. -/
theorem process_chunks_eq_single :
    ∀ (chunks : List (List Nat)) (s s1 : Session),
      next_line s.upstream_buffer = none →
      s.on_upstream_data chunks.flatten = some s1 →
      s1.mode ≠ .PassThrough →
      process_chunks s chunks = some s1 := by
  intro chunks
  induction chunks with
  | nil =>
    intro s s1 hnl hcall h1
    by_cases hpt : s.mode = .PassThrough
    · rw [on_upstream_data_pass hpt] at hcall
      cases hcall
      exact absurd hpt h1
    · rw [on_upstream_data_eq hpt] at hcall
      simp only [List.flatten_nil, List.append_nil] at hcall
      have hcall2 : Session.drain_upstream s = some s1 := hcall
      have h3 := (drain_upstream_incomplete hpt (next_reply_eq_none hnl)).symm.trans hcall2
      cases h3
      rfl
  | cons c cs ih =>
    intro s s1 hnl hcall h1
    by_cases hpt : s.mode = .PassThrough
    · rw [on_upstream_data_pass hpt] at hcall
      cases hcall
      exact absurd hpt h1
    · rw [on_upstream_data_eq hpt] at hcall
      have hcall3 : Session.drain_upstream
          { ({ s with upstream_buffer := s.upstream_buffer ++ c } : Session) with
              upstream_buffer :=
                ({ s with upstream_buffer := s.upstream_buffer ++ c } : Session).upstream_buffer
                  ++ cs.flatten } = some s1 := by
        have : Session.drain_upstream
            { s with upstream_buffer := (s.upstream_buffer ++ c) ++ cs.flatten } = some s1 := by
          simpa [List.append_assoc] using hcall
        exact this
      rw [drain_upstream_append { s with upstream_buffer := s.upstream_buffer ++ c }
            cs.flatten] at hcall3
      cases hd : Session.drain_upstream { s with upstream_buffer := s.upstream_buffer ++ c } with
      | none => rw [hd] at hcall3; simp at hcall3
      | some t =>
        rw [hd] at hcall3
        simp only [Option.some_bind] at hcall3
        by_cases htm : t.mode = .PassThrough
        · rw [if_pos htm] at hcall3
          cases hcall3
          exact absurd htm h1
        · rw [if_neg htm] at hcall3
          have hstep : s.on_upstream_data c = some t := by
            rw [on_upstream_data_eq hpt]; exact hd
          have hnl2 : next_line t.upstream_buffer = none := drain_upstream_no_line hd htm
          have hcall4 : t.on_upstream_data cs.flatten = some s1 := by
            rw [on_upstream_data_eq htm]; exact hcall3
          have hres := ih t s1 hnl2 hcall4 h1
          simp [process_chunks, hstep, hres]

/-- **C1** counterexample: with the greeting pending, a permanent-negative
`554` reply still flips Mode from `Connect` to `Command`, contradicting the
claim that a negative-class greeting reply leaves Mode unchanged. -/
theorem greeting_negative_reply_changes_mode :
    (Session.new.on_new_conection.handle_reply
        (Reply.new ⟨⟨.PermanentNegativeCompletionReply, .MailSystem, ⟨4⟩⟩, true, ascii "no"⟩)).map
        Session.mode = some Mode.Command ∧
    Session.new.on_new_conection.mode = Mode.Connect := by
  decide

/-- **C1** (amended): when the front pending entry is the `Connect`
greeting, `Session::handle_reply` pops it, reports the reply to the sink,
and sets Mode to `Command` for every reply, regardless of its code class
— the `Connect → Command` transition is unconditional, not gated on
`is_positive`. -/
theorem greeting_reply_transitions_unconditionally (s : Session) (r : Reply)
    (rest : List PendingReply)
    (hp : s.pending_replies = .Connect :: rest) :
    s.handle_reply r =
      some { s with pending_replies := rest,
                    events := s.events ++ [.SmtpConnectReply r.code],
                    mode := .Command } := by
  unfold Session.handle_reply
  simp only [hp]

theorem greeting_reply_transitions_unconditionally_witness :
    (Session.new.on_new_conection).handle_reply
        (Reply.new ⟨⟨.PermanentNegativeCompletionReply, .MailSystem, ⟨4⟩⟩, true, ascii "no"⟩) =
      some { Session.new.on_new_conection with
               pending_replies := [],
               events := Session.new.on_new_conection.events ++
                 [.SmtpConnectReply ⟨.PermanentNegativeCompletionReply, .MailSystem, ⟨4⟩⟩],
               mode := .Command } ∧
    (Session.new.on_new_conection).handle_reply
        (Reply.new ⟨⟨.PositiveCompletionReply, .Connections, ⟨0⟩⟩, true, ascii "ok"⟩) =
      some { Session.new.on_new_conection with
               pending_replies := [],
               events := Session.new.on_new_conection.events ++
                 [.SmtpConnectReply ⟨.PositiveCompletionReply, .Connections, ⟨0⟩⟩],
               mode := .Command } :=
  ⟨greeting_reply_transitions_unconditionally _ _ [] rfl,
   greeting_reply_transitions_unconditionally _ _ [] rfl⟩

theorem downstream_first_line_parse_error (s : Session) (d line rest : List Nat)
    (hcc : s.mode = .Connect ∨ s.mode = .Command)
    (hl : next_line (s.downstream_buffer ++ d) = some (line, rest))
    (htf : Command.try_from line = none) :
    s.on_downstream_data d =
      { s with downstream_buffer := rest,
               mode := .PassThrough,
               events := s.events ++ [.SmtpParseError] } := by
  have hm : s.mode ≠ .PassThrough := by rcases hcc with h | h <;> simp [h]
  have hcc2 : ({ s with downstream_buffer := s.downstream_buffer ++ d } : Session).mode = .Connect ∨
      ({ s with downstream_buffer := s.downstream_buffer ++ d } : Session).mode = .Command := hcc
  have hc : next_command
      (({ s with downstream_buffer := s.downstream_buffer ++ d } : Session).downstream_buffer) =
      (rest, .ParseError) := by
    show next_command (s.downstream_buffer ++ d) = (rest, .ParseError)
    unfold next_command
    simp only [hl, htf]
  rw [on_downstream_data_eq hm]
  rw [drain_downstream_parse_error hcc2 hc]
  rfl

/-- **C2**: every parse error met while draining either buffer — a
malformed command line downstream, a malformed reply line upstream, or a
completed reply arriving with an empty pending queue — is reported to the
sink as a parse-error event and sets Mode to `PassThrough`, while the
operation itself returns successfully (the downstream path is total; the
upstream path returns `some`). -/
theorem parse_error_fallback :
    (∀ (s : Session) (d line rest : List Nat),
        (s.mode = .Connect ∨ s.mode = .Command) →
        next_line (s.downstream_buffer ++ d) = some (line, rest) →
        Command.try_from line = none →
        s.on_downstream_data d =
          { s with downstream_buffer := rest,
                   mode := .PassThrough,
                   events := s.events ++ [.SmtpParseError] }) ∧
    (∀ (s : Session) (d line rest : List Nat),
        s.mode ≠ .PassThrough →
        next_line (s.upstream_buffer ++ d) = some (line, rest) →
        ReplyLine.try_from line = .err →
        s.on_upstream_data d =
          some { s with upstream_buffer := rest,
                        mode := .PassThrough,
                        events := s.events ++ [.SmtpParseError] }) ∧
    (∀ (s : Session) (d line rest : List Nat) (l : ReplyLine),
        s.mode ≠ .PassThrough →
        s.pending_replies = [] →
        s.next_reply = none →
        next_line (s.upstream_buffer ++ d) = some (line, rest) →
        ReplyLine.try_from line = .ok l →
        l.is_end_line = true →
        s.on_upstream_data d =
          some { s with upstream_buffer := rest,
                        mode := .PassThrough,
                        events := s.events ++ [.SmtpParseError] }) := by
  refine ⟨?_, ?_, ?_⟩
  · intro s d line rest hcc hl htf
    exact downstream_first_line_parse_error s d line rest hcc hl htf
  · intro s d line rest hm hl htf
    have hm2 : ¬({ s with upstream_buffer := s.upstream_buffer ++ d } : Session).mode = .PassThrough := hm
    have hrp : Smtp.next_reply
        (({ s with upstream_buffer := s.upstream_buffer ++ d } : Session).upstream_buffer)
        (({ s with upstream_buffer := s.upstream_buffer ++ d } : Session).next_reply) =
        (rest, s.next_reply, .ParseError) := by
      show Smtp.next_reply (s.upstream_buffer ++ d) s.next_reply = _
      rw [next_reply_eq_some hl]
      simp only [htf]
    rw [on_upstream_data_eq hm]
    rw [drain_upstream_parse_error hm2 hrp]
    rfl
  · intro s d line rest l hm hpend hnr hl htf hend
    have hm2 : ¬({ s with upstream_buffer := s.upstream_buffer ++ d } : Session).mode = .PassThrough := hm
    have hrp : Smtp.next_reply
        (({ s with upstream_buffer := s.upstream_buffer ++ d } : Session).upstream_buffer)
        (({ s with upstream_buffer := s.upstream_buffer ++ d } : Session).next_reply) =
        (rest, none, .Complete (Reply.new l)) := by
      show Smtp.next_reply (s.upstream_buffer ++ d) s.next_reply = _
      rw [hnr, next_reply_eq_some hl]
      simp only [htf]
      rw [if_pos (show l.is_end_line = true from hend)]
    have hh : Session.handle_reply
        { ({ s with upstream_buffer := s.upstream_buffer ++ d } : Session) with
            upstream_buffer := rest, next_reply := none } (Reply.new l) = none := by
      unfold Session.handle_reply
      simp only [hpend]
    rw [on_upstream_data_eq hm]
    rw [drain_upstream_complete_err hm2 hrp hh]
    rw [hnr]
    rfl

theorem parse_error_fallback_witness :
    Session.new.on_downstream_data (ascii "M" ++ [255] ++ CR_LF ++ ascii "Q") =
      { Session.new with downstream_buffer := ascii "Q",
                         mode := .PassThrough,
                         events := Session.new.events ++ [.SmtpParseError] } ∧
    Session.new.on_upstream_data (ascii "9xx" ++ CR_LF) =
      some { Session.new with upstream_buffer := [],
                              mode := .PassThrough,
                              events := Session.new.events ++ [.SmtpParseError] } ∧
    Session.new.on_upstream_data (ascii "250 ok" ++ CR_LF) =
      some { Session.new with upstream_buffer := [],
                              mode := .PassThrough,
                              events := Session.new.events ++ [.SmtpParseError] } := by
  refine ⟨?_, ?_, ?_⟩
  · exact parse_error_fallback.1 Session.new _ (ascii "M" ++ [255]) (ascii "Q")
      (Or.inl rfl) (by decide) (by decide)
  · exact parse_error_fallback.2.1 Session.new _ (ascii "9xx") []
      (by decide) (by decide) (by decide)
  · exact parse_error_fallback.2.2 Session.new _ (ascii "250 ok") []
      ⟨⟨.PositiveCompletionReply, .MailSystem, ⟨0⟩⟩, true, ascii "ok"⟩
      (by decide) rfl rfl (by decide) (by decide) rfl

/-- **C3**: `PassThrough` is absorbing: in `PassThrough` mode both data
entry points return successfully, discard the bytes without buffering
them, and leave the whole session state (buffers, queue, transaction,
slots, event log) unchanged. -/
theorem passthrough_absorbing (s : Session) (d : List Nat)
    (h : s.mode = .PassThrough) :
    s.on_downstream_data d = s ∧ s.on_upstream_data d = some s :=
  ⟨on_downstream_data_pass h, on_upstream_data_pass h⟩

theorem passthrough_absorbing_witness :
    ({ Session.new with mode := .PassThrough } : Session).on_downstream_data
        (ascii "MAIL FROM:<a@b>" ++ CR_LF) = { Session.new with mode := .PassThrough } ∧
    ({ Session.new with mode := .PassThrough } : Session).on_upstream_data [0, 13, 10] =
      some { Session.new with mode := .PassThrough } :=
  ⟨(passthrough_absorbing _ _ rfl).1, (passthrough_absorbing _ _ rfl).2⟩

/-- **C8**: the reply-line parser panics — it does not parse and it does
not return an error — on a line of exactly 3 bytes, because after the
code is drained `Vec::drain(0..1)` runs on an empty vector; the `[]`
match arm meant to accept an absent separator (last-line flag true) is
unreachable.  The 3 bytes themselves form a valid code, so the spec's
claimed success case is what the panic replaces. -/
theorem reply_line_three_bytes_panicked :
    ReplyLine.try_from (ascii "250") = .panicked ∧
    ReplyCode.try_from (ascii "250") =
      some ⟨.PositiveCompletionReply, .MailSystem, ⟨0⟩⟩ := by
  decide

/-- **C5**: in `Data` mode, a complete `.` line with a non-empty
accumulated body commits: the accumulated body (with the terminator line
and its `<CR><LF>` re-appended) is installed into the transaction
(created if absent), the transaction leaves the live slot and is enqueued
as a `Commit` pending reply, a commit notification fires, and Mode
reverts to `Command` before the same call drains any further buffered
commands; a `.` line arriving while the accumulated body is empty is
merely absorbed into the accumulator. -/
theorem data_dot_terminator :
    (∀ (s : Session) (d rest : List Nat),
        s.mode = .Data →
        s.next_body ≠ [] →
        next_line (s.downstream_buffer ++ d) = some ([46], rest) →
        s.on_downstream_data d =
          Session.drain_downstream
            { s with downstream_buffer := rest,
                     next_body := [],
                     active_transaction := none,
                     pending_replies := s.pending_replies ++
                       [.Commit { s.active_transaction.getD default with
                                    body := s.next_body ++ [46] ++ CR_LF }],
                     events := s.events ++ [.SmtpTransactionCommit],
                     mode := .Command }) ∧
    (∀ (s : Session) (d rest : List Nat),
        s.mode = .Data →
        s.next_body = [] →
        next_line (s.downstream_buffer ++ d) = some ([46], rest) →
        s.on_downstream_data d =
          Session.drain_downstream
            { s with downstream_buffer := rest,
                     next_body := s.next_body ++ [46] ++ CR_LF }) := by
  constructor
  · intro s d rest hdata hnb hl
    have hend : (!(s.next_body).isEmpty && (([46] : List Nat) == [46])) = true := by
      simp [List.isEmpty_iff, hnb]
    have hb : Smtp.next_body
        (({ s with downstream_buffer := s.downstream_buffer ++ d } : Session).downstream_buffer)
        (({ s with downstream_buffer := s.downstream_buffer ++ d } : Session).next_body) =
        (rest, [], some (s.next_body ++ [46] ++ CR_LF)) := by
      show Smtp.next_body (s.downstream_buffer ++ d) s.next_body = _
      rw [next_body_eq_some hl, if_pos hend]
    have hdata2 : ({ s with downstream_buffer := s.downstream_buffer ++ d } : Session).mode = .Data := hdata
    rw [on_downstream_data_eq (by simp [hdata]), drain_downstream_data_some hdata2 hb]
  · intro s d rest hdata hnb hl
    rcases hb2 : Smtp.next_body rest (s.next_body ++ [46] ++ CR_LF) with ⟨R, B, OB⟩
    have hb : Smtp.next_body
        (({ s with downstream_buffer := s.downstream_buffer ++ d } : Session).downstream_buffer)
        (({ s with downstream_buffer := s.downstream_buffer ++ d } : Session).next_body) =
        (R, B, OB) := by
      show Smtp.next_body (s.downstream_buffer ++ d) s.next_body = _
      rw [next_body_eq_some hl, if_neg (by simp [hnb])]
      exact hb2
    have hb3 : Smtp.next_body
        (({ s with downstream_buffer := rest, next_body := s.next_body ++ [46] ++ CR_LF } : Session).downstream_buffer)
        (({ s with downstream_buffer := rest, next_body := s.next_body ++ [46] ++ CR_LF } : Session).next_body) =
        (R, B, OB) := hb2
    have hdata2 : ({ s with downstream_buffer := s.downstream_buffer ++ d } : Session).mode = .Data := hdata
    have hdata3 : ({ s with downstream_buffer := rest, next_body := s.next_body ++ [46] ++ CR_LF } : Session).mode = .Data := hdata
    rw [on_downstream_data_eq (by simp [hdata])]
    cases OB with
    | none => rw [drain_downstream_data_none hdata2 hb, drain_downstream_data_none hdata3 hb3]
    | some b => rw [drain_downstream_data_some hdata2 hb, drain_downstream_data_some hdata3 hb3]

theorem data_dot_terminator_witness :
    ({ Session.new with mode := .Data, next_body := ascii "Hi" ++ CR_LF } : Session).on_downstream_data
        ([46] ++ CR_LF) =
      Session.drain_downstream
        { ({ Session.new with mode := .Data, next_body := ascii "Hi" ++ CR_LF } : Session) with
            downstream_buffer := [],
            next_body := [],
            active_transaction := none,
            pending_replies :=
              ({ Session.new with mode := .Data, next_body := ascii "Hi" ++ CR_LF } : Session).pending_replies ++
                [.Commit { (({ Session.new with mode := .Data, next_body := ascii "Hi" ++ CR_LF } : Session).active_transaction.getD default) with
                             body := (ascii "Hi" ++ CR_LF) ++ [46] ++ CR_LF }],
            events :=
              ({ Session.new with mode := .Data, next_body := ascii "Hi" ++ CR_LF } : Session).events ++
                [.SmtpTransactionCommit],
            mode := .Command } :=
  data_dot_terminator.1 _ _ [] rfl (by decide) (by decide)

/-- **C6** counterexample: a malformed command line followed by one more
byte: split after the line, the trailing byte is discarded on entry to
`PassThrough`; combined, it stays in the downstream buffer — the final
states differ, so the split and combined calls are not identical. -/
theorem downstream_chunk_split_differs :
    (Session.new.on_downstream_data (ascii "M" ++ [255] ++ CR_LF)).on_downstream_data (ascii "Q") ≠
      Session.new.on_downstream_data (ascii "M" ++ [255] ++ CR_LF ++ ascii "Q") := by
  have hA : Session.new.on_downstream_data (ascii "M" ++ [255] ++ CR_LF) =
      { Session.new with downstream_buffer := [],
                         mode := .PassThrough,
                         events := Session.new.events ++ [.SmtpParseError] } :=
    downstream_first_line_parse_error Session.new _ (ascii "M" ++ [255]) []
      (Or.inl rfl) (by decide) (by decide)
  have hB : Session.new.on_downstream_data (ascii "M" ++ [255] ++ CR_LF ++ ascii "Q") =
      { Session.new with downstream_buffer := ascii "Q",
                         mode := .PassThrough,
                         events := Session.new.events ++ [.SmtpParseError] } :=
    downstream_first_line_parse_error Session.new _ (ascii "M" ++ [255]) (ascii "Q")
      (Or.inl rfl) (by decide) (by decide)
  intro h
  rw [hA, on_downstream_data_pass rfl, hB] at h
  exact absurd h (by decide)

/-- **C6** (amended): splitting a downstream byte sequence across two
calls yields the same final Mode, sink events, pending queue, transaction
and parser slots, and the same upstream buffer, as one combined call; and
whenever the combined call does not end in `PassThrough`, the two final
states are identical — only a mid-data fallback can leave the unprocessed
remainder in the combined call's downstream buffer while the split call
discards it. -/
theorem downstream_chunks_compose (s : Session) (a b : List Nat)
    (hm : s.mode ≠ .PassThrough) :
    ((s.on_downstream_data a).on_downstream_data b).mode =
        (s.on_downstream_data (a ++ b)).mode ∧
    ((s.on_downstream_data a).on_downstream_data b).events =
        (s.on_downstream_data (a ++ b)).events ∧
    ((s.on_downstream_data a).on_downstream_data b).pending_replies =
        (s.on_downstream_data (a ++ b)).pending_replies ∧
    ((s.on_downstream_data a).on_downstream_data b).active_transaction =
        (s.on_downstream_data (a ++ b)).active_transaction ∧
    ((s.on_downstream_data a).on_downstream_data b).next_body =
        (s.on_downstream_data (a ++ b)).next_body ∧
    ((s.on_downstream_data a).on_downstream_data b).next_reply =
        (s.on_downstream_data (a ++ b)).next_reply ∧
    ((s.on_downstream_data a).on_downstream_data b).upstream_buffer =
        (s.on_downstream_data (a ++ b)).upstream_buffer ∧
    ((s.on_downstream_data (a ++ b)).mode ≠ .PassThrough →
      (s.on_downstream_data a).on_downstream_data b = s.on_downstream_data (a ++ b)) := by
  have h1 : s.on_downstream_data a =
      Session.drain_downstream { s with downstream_buffer := s.downstream_buffer ++ a } :=
    on_downstream_data_eq hm
  have hcomb : s.on_downstream_data (a ++ b) =
      Session.drain_downstream
        { ({ s with downstream_buffer := s.downstream_buffer ++ a } : Session) with
            downstream_buffer :=
              ({ s with downstream_buffer := s.downstream_buffer ++ a } : Session).downstream_buffer
                ++ b } := by
    rw [on_downstream_data_eq hm]
    have hassoc : s.downstream_buffer ++ (a ++ b) = (s.downstream_buffer ++ a) ++ b := by
      rw [List.append_assoc]
    rw [hassoc]
  rw [drain_downstream_append { s with downstream_buffer := s.downstream_buffer ++ a } b] at hcomb
  by_cases hpt2 :
      (Session.drain_downstream { s with downstream_buffer := s.downstream_buffer ++ a }).mode =
        .PassThrough
  · rw [if_pos hpt2] at hcomb
    have h2 : (s.on_downstream_data a).on_downstream_data b = s.on_downstream_data a := by
      rw [h1]
      exact on_downstream_data_pass hpt2
    rw [h2, h1, hcomb]
    refine ⟨rfl, rfl, rfl, rfl, rfl, rfl, rfl, fun hne => absurd hpt2 hne⟩
  · rw [if_neg hpt2] at hcomb
    have h2 : (s.on_downstream_data a).on_downstream_data b =
        Session.drain_downstream
          { (Session.drain_downstream { s with downstream_buffer := s.downstream_buffer ++ a }) with
              downstream_buffer :=
                (Session.drain_downstream
                  { s with downstream_buffer := s.downstream_buffer ++ a }).downstream_buffer
                  ++ b } := by
      rw [h1]
      exact on_downstream_data_eq hpt2
    have heq : (s.on_downstream_data a).on_downstream_data b = s.on_downstream_data (a ++ b) := by
      rw [h2, hcomb]
    exact ⟨by rw [heq], by rw [heq], by rw [heq], by rw [heq], by rw [heq], by rw [heq],
      by rw [heq], fun _ => heq⟩

theorem downstream_chunks_compose_witness :
    ((Session.new.on_downstream_data (ascii "MAIL FR")).on_downstream_data
          (ascii "OM:<a@b>" ++ CR_LF)).mode =
        (Session.new.on_downstream_data (ascii "MAIL FR" ++ (ascii "OM:<a@b>" ++ CR_LF))).mode ∧
    ((Session.new.on_downstream_data (ascii "MAIL FR")).on_downstream_data
          (ascii "OM:<a@b>" ++ CR_LF)).events =
        (Session.new.on_downstream_data (ascii "MAIL FR" ++ (ascii "OM:<a@b>" ++ CR_LF))).events ∧
    ((Session.new.on_downstream_data (ascii "MAIL FR")).on_downstream_data
          (ascii "OM:<a@b>" ++ CR_LF)).pending_replies =
        (Session.new.on_downstream_data
            (ascii "MAIL FR" ++ (ascii "OM:<a@b>" ++ CR_LF))).pending_replies := by
  have h := downstream_chunks_compose Session.new (ascii "MAIL FR") (ascii "OM:<a@b>" ++ CR_LF)
    (by decide)
  exact ⟨h.1, h.2.1, h.2.2.1⟩

/-- **C7**: command parsing fails exactly when the verb bytes (those
before the first space, or the whole line when there is none) are not
valid UTF-8; a valid verb outside the fixed table parses to `Unknown`
carrying the ASCII-upper-cased verb and the raw argument bytes
verbatim. -/
theorem command_parse_characterization (line : List Nat) :
    (Command.try_from line = none ↔ utf8Valid (split_verb line).1 = false) ∧
    (utf8Valid (split_verb line).1 = true →
      make_ascii_uppercase (split_verb line).1 ∉
        [Helo.VERB, Ehlo.VERB, Mail.VERB, Rcpt.VERB, Data.VERB, Rset.VERB,
         Vrfy.VERB, Expn.VERB, Help.VERB, Noop.VERB, Quit.VERB, StartTls.VERB] →
      Command.try_from line =
        some (.Unknown (make_ascii_uppercase (split_verb line).1) (split_verb line).2)) := by
  constructor
  · by_cases hv : utf8Valid (split_verb line).1 = true
    · constructor
      · intro h
        rw [Command.try_from] at h
        dsimp only at h
        rw [if_pos hv] at h
        by_cases e1 : make_ascii_uppercase (split_verb line).1 = Helo.VERB
        · rw [if_pos e1] at h
          exact Option.noConfusion h
        rw [if_neg e1] at h
        by_cases e2 : make_ascii_uppercase (split_verb line).1 = Ehlo.VERB
        · rw [if_pos e2] at h
          exact Option.noConfusion h
        rw [if_neg e2] at h
        by_cases e3 : make_ascii_uppercase (split_verb line).1 = Mail.VERB
        · rw [if_pos e3] at h
          exact Option.noConfusion h
        rw [if_neg e3] at h
        by_cases e4 : make_ascii_uppercase (split_verb line).1 = Rcpt.VERB
        · rw [if_pos e4] at h
          exact Option.noConfusion h
        rw [if_neg e4] at h
        by_cases e5 : make_ascii_uppercase (split_verb line).1 = Data.VERB
        · rw [if_pos e5] at h
          exact Option.noConfusion h
        rw [if_neg e5] at h
        by_cases e6 : make_ascii_uppercase (split_verb line).1 = Rset.VERB
        · rw [if_pos e6] at h
          exact Option.noConfusion h
        rw [if_neg e6] at h
        by_cases e7 : make_ascii_uppercase (split_verb line).1 = Vrfy.VERB
        · rw [if_pos e7] at h
          exact Option.noConfusion h
        rw [if_neg e7] at h
        by_cases e8 : make_ascii_uppercase (split_verb line).1 = Expn.VERB
        · rw [if_pos e8] at h
          exact Option.noConfusion h
        rw [if_neg e8] at h
        by_cases e9 : make_ascii_uppercase (split_verb line).1 = Help.VERB
        · rw [if_pos e9] at h
          exact Option.noConfusion h
        rw [if_neg e9] at h
        by_cases e10 : make_ascii_uppercase (split_verb line).1 = Noop.VERB
        · rw [if_pos e10] at h
          exact Option.noConfusion h
        rw [if_neg e10] at h
        by_cases e11 : make_ascii_uppercase (split_verb line).1 = Quit.VERB
        · rw [if_pos e11] at h
          exact Option.noConfusion h
        rw [if_neg e11] at h
        by_cases e12 : make_ascii_uppercase (split_verb line).1 = StartTls.VERB
        · rw [if_pos e12] at h
          exact Option.noConfusion h
        rw [if_neg e12] at h
        rw [Unknown.try_from] at h
        try dsimp only at h
        rw [if_pos hv] at h
        exact Option.noConfusion h
      · intro h
        rw [h] at hv
        cases hv
    · have hv2 : utf8Valid (split_verb line).1 = false := by simpa using hv
      constructor
      · intro _
        exact hv2
      · intro _
        rw [Command.try_from]
        try dsimp only
        rw [if_neg hv]
  · intro hv hnot
    simp only [List.mem_cons, List.not_mem_nil, or_false, not_or] at hnot
    obtain ⟨h1, h2, h3, h4, h5, h6, h7, h8, h9, h10, h11, h12⟩ := hnot
    rw [Command.try_from]
    try dsimp only
    rw [if_pos hv, if_neg h1, if_neg h2, if_neg h3, if_neg h4, if_neg h5, if_neg h6,
      if_neg h7, if_neg h8, if_neg h9, if_neg h10, if_neg h11, if_neg h12]
    rw [Unknown.try_from]
    try dsimp only
    rw [if_pos hv]

theorem command_parse_characterization_witness :
    Command.try_from (ascii "xyzzy hi") =
      some (.Unknown (ascii "XYZZY") (ascii "hi")) := by
  have h := (command_parse_characterization (ascii "xyzzy hi")).2 (by decide) (by decide)
  simpa using h

theorem next_body_some_shape {buf body rest body2 b : List Nat}
    (h : Smtp.next_body buf body = (rest, body2, some b)) :
    ∃ init : List (List Nat),
      b = body ++ ((init ++ [[46]]).map (fun l => l ++ CR_LF)).flatten := by
  obtain ⟨n, hk⟩ : ∃ n, buf.length = n := ⟨_, rfl⟩
  induction n using Nat.strong_induction_on generalizing buf body rest body2 b with
  | _ n ih =>
    subst hk
    cases hl : next_line buf with
    | none =>
      rw [next_body_eq_none hl] at h
      simp at h
    | some p =>
      obtain ⟨line, rst⟩ := p
      rw [next_body_eq_some hl] at h
      have hlen := next_line_length hl
      by_cases hend : (!body.isEmpty && (line == [46])) = true
      · rw [if_pos hend] at h
        cases h
        have hline : line = [46] := by
          simp only [Bool.and_eq_true, beq_iff_eq] at hend
          exact hend.2
        exact ⟨[], by simp [hline, List.append_assoc]⟩
      · rw [if_neg hend] at h
        obtain ⟨init, hb⟩ := ih rst.length (by omega) h rfl
        refine ⟨line :: init, ?_⟩
        rw [hb]
        simp [List.append_assoc]

theorem drain_downstream_commit_mem (s : Session) (tx : Transaction)
    (h : PendingReply.Commit tx ∈ s.drain_downstream.pending_replies) :
    PendingReply.Commit tx ∈ s.pending_replies ∨ ∃ c, tx.body = c ++ ([46] ++ CR_LF) := by
  obtain ⟨n, hk⟩ : ∃ n, s.downstream_buffer.length = n := ⟨_, rfl⟩
  induction n using Nat.strong_induction_on generalizing s with
  | _ n ih =>
    subst hk
    by_cases hpt : s.mode = .PassThrough
    · rw [drain_downstream_pass hpt] at h
      exact Or.inl h
    · by_cases hdata : s.mode = .Data
      · rcases hb : Smtp.next_body s.downstream_buffer s.next_body with ⟨rest, body2, ob⟩
        cases ob with
        | none =>
          rw [drain_downstream_data_none hdata hb] at h
          exact Or.inl h
        | some b =>
          rw [drain_downstream_data_some hdata hb] at h
          have hres := ih rest.length (by have := next_body_some_length hb; omega) _ h rfl
          cases hres with
          | inr hr => exact Or.inr hr
          | inl hl2 =>
            rw [List.mem_append] at hl2
            cases hl2 with
            | inl hl3 => exact Or.inl hl3
            | inr hl3 =>
              simp only [List.mem_singleton] at hl3
              cases hl3
              obtain ⟨init, hbshape⟩ := next_body_some_shape hb
              refine Or.inr ⟨s.next_body ++ ((init.map (fun l => l ++ CR_LF)).flatten), ?_⟩
              rw [hbshape]
              simp [List.append_assoc]
      · have hcc : s.mode = .Connect ∨ s.mode = .Command := by
          cases hm2 : s.mode
          · exact Or.inl rfl
          · exact Or.inr rfl
          · exact absurd hm2 hdata
          · exact absurd hm2 hpt
        rcases hc : next_command s.downstream_buffer with ⟨rest, step⟩
        cases step with
        | Incomplete =>
          rw [drain_downstream_incomplete hcc hc] at h
          exact Or.inl h
        | ParseError =>
          rw [drain_downstream_parse_error hcc hc] at h
          exact Or.inl h
        | Got cmd =>
          rw [drain_downstream_got hcc hc] at h
          have hres := ih rest.length (by have := next_command_got_length hc; omega) _ h rfl
          cases hres with
          | inr hr => exact Or.inr hr
          | inl hl2 =>
            rw [List.mem_append] at hl2
            cases hl2 with
            | inl hl3 => exact Or.inl hl3
            | inr hl3 => simp at hl3

/-- **C10**: a completed DATA body is exactly the previously-accumulated
bytes followed by every line extracted in this call with its `<CR><LF>`
terminator re-appended, the terminating `.` line included; consequently
every transaction newly committed by `on_downstream_data` has a body that
ends with the bytes `.\r\n` (and in particular is non-empty). -/
theorem committed_body_shape :
    (∀ buf body rest body2 b, Smtp.next_body buf body = (rest, body2, some b) →
      ∃ init : List (List Nat),
        b = body ++ ((init ++ [[46]]).map (fun l => l ++ CR_LF)).flatten) ∧
    (∀ (s : Session) (d : List Nat) (tx : Transaction),
      PendingReply.Commit tx ∈ (s.on_downstream_data d).pending_replies →
      PendingReply.Commit tx ∈ s.pending_replies ∨ ∃ c, tx.body = c ++ ([46] ++ CR_LF)) := by
  constructor
  · intro buf body rest body2 b h
    exact next_body_some_shape h
  · intro s d tx h
    by_cases hpt : s.mode = .PassThrough
    · rw [on_downstream_data_pass hpt] at h
      exact Or.inl h
    · rw [on_downstream_data_eq hpt] at h
      exact drain_downstream_commit_mem
        { s with downstream_buffer := s.downstream_buffer ++ d } tx h

theorem committed_body_shape_witness :
    ∃ init : List (List Nat),
      (ascii "Hi" ++ CR_LF ++ ([46] ++ CR_LF)) =
        [] ++ ((init ++ [[46]]).map (fun l => l ++ CR_LF)).flatten := by
  have h := committed_body_shape.1 (ascii "Hi" ++ CR_LF ++ [46] ++ CR_LF) [] [] []
    (ascii "Hi" ++ CR_LF ++ [46] ++ CR_LF)
    (by simp [Smtp.next_body, next_line, ascii, CR_LF])
  simpa [List.append_assoc] using h

/-- **C9**: for zero or more valid continuation lines followed by one
valid last line, the assembler emits exactly one Reply: while only
continuation lines have been consumed nothing is emitted (the lines
accumulate in the in-progress slot), and once the last-flagged line is
consumed the emitted Reply carries all the lines in arrival order, its
code is the code of the first line, and the in-progress slot is
cleared. -/
theorem multi_line_reply_assembly
    (cont : List (List Nat)) (cls : List ReplyLine) (w : List Nat) (l : ReplyLine)
    (extra : List Nat)
    (hcont : List.Forall₂
      (fun wi li => next_line wi = none ∧ ReplyLine.try_from wi = .ok li ∧ li.last = false)
      cont cls)
    (hnl : next_line w = none) (hok : ReplyLine.try_from w = .ok l)
    (hlast : l.last = true) :
    Smtp.next_reply (lines_wire cont) none = ([], reply_extend none cls, .Incomplete) ∧
    Smtp.next_reply (lines_wire (cont ++ [w]) ++ extra) none =
      (extra, none, .Complete ⟨cls ++ [l]⟩) ∧
    (∀ (l0 : ReplyLine) (t : List ReplyLine), cls ++ [l] = l0 :: t →
      Reply.code ⟨cls ++ [l]⟩ = l0.code) := by
  refine ⟨?_, ?_, ?_⟩
  · have h := next_reply_continuations cont cls hcont none []
    rw [List.append_nil] at h
    rw [h, next_reply_eq_none (show next_line [] = none from rfl)]
  · exact next_reply_wf_wire ⟨cont, cls, w, l, rfl, rfl, hcont, hnl, hok, hlast⟩ extra
  · intro l0 t hform
    simp [Reply.code, hform]

theorem multi_line_reply_assembly_witness :
    Smtp.next_reply (lines_wire [ascii "250-line one"]) none =
      ([], reply_extend none [⟨⟨.PositiveCompletionReply, .MailSystem, ⟨0⟩⟩, false, ascii "line one"⟩],
        .Incomplete) ∧
    Smtp.next_reply (lines_wire ([ascii "250-line one"] ++ [ascii "250 line two"]) ++ []) none =
      ([], none, .Complete
        ⟨[⟨⟨.PositiveCompletionReply, .MailSystem, ⟨0⟩⟩, false, ascii "line one"⟩] ++
          [⟨⟨.PositiveCompletionReply, .MailSystem, ⟨0⟩⟩, true, ascii "line two"⟩]⟩) ∧
    (∀ (l0 : ReplyLine) (t : List ReplyLine),
      [⟨⟨.PositiveCompletionReply, .MailSystem, ⟨0⟩⟩, false, ascii "line one"⟩] ++
          [⟨⟨.PositiveCompletionReply, .MailSystem, ⟨0⟩⟩, true, ascii "line two"⟩] = l0 :: t →
      Reply.code
        ⟨[⟨⟨.PositiveCompletionReply, .MailSystem, ⟨0⟩⟩, false, ascii "line one"⟩] ++
          [⟨⟨.PositiveCompletionReply, .MailSystem, ⟨0⟩⟩, true, ascii "line two"⟩]⟩ = l0.code) :=
  multi_line_reply_assembly [ascii "250-line one"]
    [⟨⟨.PositiveCompletionReply, .MailSystem, ⟨0⟩⟩, false, ascii "line one"⟩]
    (ascii "250 line two")
    ⟨⟨.PositiveCompletionReply, .MailSystem, ⟨0⟩⟩, true, ascii "line two"⟩
    []
    (List.Forall₂.cons ⟨by decide, by decide, rfl⟩ List.Forall₂.nil)
    (by decide) (by decide) rfl

/-- **C4**: FIFO correlation. For any session with pending entries
enqueued in order, delivering the wire bytes of well-formed replies
upstream in arbitrary chunks matches the i-th completed reply against
the i-th pending entry: all chunks succeed, the first `rs.length`
pending entries are popped in order, and the event log extends by
exactly the in-order match events — provided no matched pair disables
inspection (no positively-answered STARTTLS/unknown command). -/
theorem upstream_fifo_chunked
    (chunks : List (List Nat)) (wss : List (List (List Nat))) (rs : List Reply) (s : Session)
    (hjoin : chunks.flatten = replies_wire wss)
    (hwf : List.Forall₂ wf_reply_wire wss rs)
    (hpt : s.mode ≠ .PassThrough)
    (hnr : s.next_reply = none)
    (hup : s.upstream_buffer = [])
    (hlen : rs.length ≤ s.pending_replies.length)
    (hkeep : List.Forall₂ keeps_inspecting (s.pending_replies.take rs.length) rs) :
    ∃ s2, process_chunks s chunks = some s2 ∧
      s2.pending_replies = s.pending_replies.drop rs.length ∧
      s2.events = s.events ++
        List.zipWith (fun p r => match_event p r.code)
          (s.pending_replies.take rs.length) rs := by
  obtain ⟨s2, hd, hpend, hev, hu, hn, hdb, hm⟩ :=
    drain_upstream_fifo wss rs
      { s with upstream_buffer := s.upstream_buffer ++ chunks.flatten }
      hwf hpt hnr (by simp [hup, hjoin]) hlen hkeep
  have hsingle : s.on_upstream_data chunks.flatten = some s2 := by
    rw [on_upstream_data_eq hpt]
    exact hd
  have hbridge := process_chunks_eq_single chunks s s2 (by rw [hup]; rfl) hsingle hm
  exact ⟨s2, hbridge, hpend, hev⟩

theorem upstream_fifo_chunked_witness :
    ∃ s2, process_chunks
        (⟨[], [], .Command, none, [],
          [.Command (.Mail (ascii "FROM:<a@b>") none),
           .Command (.Rcpt (ascii "TO:<c@d>") none)], none, []⟩ : Session)
        [ascii "250 ok" ++ CR_LF ++ [50], ascii "50 ko" ++ CR_LF] = some s2 ∧
      s2.pending_replies =
        ([.Command (.Mail (ascii "FROM:<a@b>") none),
          .Command (.Rcpt (ascii "TO:<c@d>") none)] : List PendingReply).drop 2 ∧
      s2.events = ([] : List Event) ++
        List.zipWith (fun p r => match_event p r.code)
          (([.Command (.Mail (ascii "FROM:<a@b>") none),
             .Command (.Rcpt (ascii "TO:<c@d>") none)] : List PendingReply).take 2)
          [Reply.new ⟨⟨.PositiveCompletionReply, .MailSystem, ⟨0⟩⟩, true, ascii "ok"⟩,
           Reply.new ⟨⟨.PositiveCompletionReply, .MailSystem, ⟨0⟩⟩, true, ascii "ko"⟩] :=
  upstream_fifo_chunked
    [ascii "250 ok" ++ CR_LF ++ [50], ascii "50 ko" ++ CR_LF]
    [[ascii "250 ok"], [ascii "250 ko"]]
    [Reply.new ⟨⟨.PositiveCompletionReply, .MailSystem, ⟨0⟩⟩, true, ascii "ok"⟩,
     Reply.new ⟨⟨.PositiveCompletionReply, .MailSystem, ⟨0⟩⟩, true, ascii "ko"⟩]
    (⟨[], [], .Command, none, [],
      [.Command (.Mail (ascii "FROM:<a@b>") none),
       .Command (.Rcpt (ascii "TO:<c@d>") none)], none, []⟩ : Session)
    (by decide)
    (List.Forall₂.cons
      ⟨[], [], ascii "250 ok", ⟨⟨.PositiveCompletionReply, .MailSystem, ⟨0⟩⟩, true, ascii "ok"⟩,
        rfl, rfl, List.Forall₂.nil, by decide, by decide, rfl⟩
      (List.Forall₂.cons
        ⟨[], [], ascii "250 ko", ⟨⟨.PositiveCompletionReply, .MailSystem, ⟨0⟩⟩, true, ascii "ko"⟩,
          rfl, rfl, List.Forall₂.nil, by decide, by decide, rfl⟩
        List.Forall₂.nil))
    (by decide) rfl rfl (by decide)
    (List.Forall₂.cons trivial (List.Forall₂.cons trivial List.Forall₂.nil))

end Smtp
